import Mathlib

/-!
# Formal model of the xacro document evaluator

This file is a shallow embedding, in Lean 4, of the core of the xacro XML
macro processor found in `src/xacro/__init__.py` of this repository: the
typed value model, the literal-coercion ladder (`Table._eval_literal`), the
scoped symbol table with lazy evaluation and cycle detection (`Table`), the
attribute-text lexer (`QuickLexer` with the four `LEXER` rules), the
expression evaluator (`safe_eval` over a sublanguage of Python expressions),
the text evaluator (`eval_text`), macro parameter parsing
(`parse_macro_arg`), macro expansion (`handle_macro_call`), the boolean
coercion used by conditionals (`get_boolean_value`), and the recursive tree
walker (`eval_all` / `process_doc`).

Python's unbounded recursion is modelled with an explicit fuel parameter:
a result other than `XErr.outOfFuel` is the result the Python code computes.
Python floats are modelled as exact rationals (the claims under study never
exercise IEEE-754 rounding).  XML DOM nodes are modelled as a functional
tree; the destructive node helpers from `xacro.xmlutils` (which is not part
of the sources under study) are modelled from the specification's
description of them.
-/

namespace Xacro

/-- An XML node: element (tag, attributes in document order, children),
text node, or comment.  The `sent` flag on text nodes marks the singleton
`_empty_text_node` sentinel that `remove_previous_comments` inserts; it has
data `"\n\n"` and only exists so that the identity test
`_empty_text_node != next` can be expressed. -/
inductive XNode where
  | elem (tag : String) (attrs : List (String × String)) (children : List XNode)
  | text (data : String) (sent : Bool)
  | comment (data : String)
deriving Repr

/-- A typed xacro value, as produced by `eval_text` / `safe_eval`:
Python int, float (modelled as an exact rational), bool, str, an XML node
(block bindings), a builtin function marker (the callables exposed by
`create_global_symbols`, opaque here), or a namespace dict (`NameSpace`). -/
inductive Value where
  | vint (i : Int)
  | vfloat (q : Rat)
  | vbool (b : Bool)
  | vstr (s : String)
  | vnode (n : XNode)
  | vbuiltin (name : String)
  | vns (entries : List (String × Value))
deriving Repr

/-- Structured errors.  Each constructor corresponds to one `raise` site in
the source (`XacroException`, `KeyError`, `NameError`, …).  `wrapped`
models `XacroException(exc=e, suffix=s)` re-raising in `handle_expr`. -/
inductive XErr where
  | outOfFuel
  | keyError (k : String)
  | nameError (k : String)
  | typeError (m : String)
  | syntaxError (s : String)
  | invalidNames (ns : List String)
  | circular (chain : List String)
  | lexError (rest : String)
  | unknownMacroName (tag : String)
  | invalidParam (p : String)
  | notEnoughBlocks
  | unusedBlock (tag : String)
  | undefinedParams (ps : List String)
  | undefinedForward (k : String)
  | badConditional (cond : String)
  | undefinedBlock (n : String)
  | missingAttribute (tag n : String)
  | emptyName (tag : String)
  | attrsExclusive (n : String)
  | invalidPropertyName (n : String)
  | doubleUnderscoreName (n : String)
  | callMissingMacroAttr
  | macroNameIsCall
  | macroNameHasDot (n : String)
  | includeFailure (f : String)
  | extensionUnsupported (s : String)
  | nsUnsupported
  | hostError (m : String)
  | wrapped (e : XErr) (suffix : String)
deriving Repr, DecidableEq

/-- The innermost error of a `wrapped` chain; `str(XacroException)`
concatenates the messages of the whole chain, so the innermost error's
message (for instance the circular-definition chain) is always cited. -/
def XErr.rootCause : XErr → XErr
  | .wrapped e _ => e.rootCause
  | e => e

mutual

def beqXNode : XNode → XNode → Bool
  | .elem t1 a1 c1, .elem t2 a2 c2 => t1 == t2 && a1 == a2 && beqXNodeList c1 c2
  | .text d1 s1, .text d2 s2 => d1 == d2 && s1 == s2
  | .comment d1, .comment d2 => d1 == d2
  | _, _ => false

def beqXNodeList : List XNode → List XNode → Bool
  | [], [] => true
  | x :: xs, y :: ys => beqXNode x y && beqXNodeList xs ys
  | _, _ => false

end

mutual

theorem beqXNode_iff : ∀ a b, beqXNode a b = true ↔ a = b
  | .elem t1 a1 c1, .elem t2 a2 c2 => by
    simp [beqXNode, beqXNodeList_iff c1 c2, and_assoc]
  | .elem _ _ _, .text _ _ => by simp [beqXNode]
  | .elem _ _ _, .comment _ => by simp [beqXNode]
  | .text _ _, .elem _ _ _ => by simp [beqXNode]
  | .text _ _, .text _ _ => by simp [beqXNode]
  | .text _ _, .comment _ => by simp [beqXNode]
  | .comment _, .elem _ _ _ => by simp [beqXNode]
  | .comment _, .text _ _ => by simp [beqXNode]
  | .comment _, .comment _ => by simp [beqXNode]

theorem beqXNodeList_iff : ∀ a b, beqXNodeList a b = true ↔ a = b
  | [], [] => by simp [beqXNodeList]
  | [], _ :: _ => by simp [beqXNodeList]
  | _ :: _, [] => by simp [beqXNodeList]
  | x :: xs, y :: ys => by
    simp [beqXNodeList, beqXNode_iff x y, beqXNodeList_iff xs ys]

end

instance : DecidableEq XNode := fun a b => decidable_of_iff _ (beqXNode_iff a b)

mutual

def beqValue : Value → Value → Bool
  | .vint a, .vint b => a == b
  | .vfloat a, .vfloat b => decide (a = b)
  | .vbool a, .vbool b => a == b
  | .vstr a, .vstr b => a == b
  | .vnode a, .vnode b => beqXNode a b
  | .vbuiltin a, .vbuiltin b => a == b
  | .vns a, .vns b => beqValuePairs a b
  | _, _ => false

def beqValuePairs : List (String × Value) → List (String × Value) → Bool
  | [], [] => true
  | (k1, v1) :: xs, (k2, v2) :: ys => k1 == k2 && beqValue v1 v2 && beqValuePairs xs ys
  | _, _ => false

end

mutual

theorem beqValue_iff : ∀ a b, beqValue a b = true ↔ a = b
  | .vint _, .vint _ => by simp [beqValue]
  | .vfloat _, .vfloat _ => by simp [beqValue]
  | .vbool _, .vbool _ => by simp [beqValue]
  | .vstr _, .vstr _ => by simp [beqValue]
  | .vnode a, .vnode b => by simp [beqValue, beqXNode_iff a b]
  | .vbuiltin _, .vbuiltin _ => by simp [beqValue]
  | .vns a, .vns b => by simp [beqValue, beqValuePairs_iff a b]
  | .vint _, .vfloat _ | .vint _, .vbool _ | .vint _, .vstr _ | .vint _, .vnode _
  | .vint _, .vbuiltin _ | .vint _, .vns _
  | .vfloat _, .vint _ | .vfloat _, .vbool _ | .vfloat _, .vstr _ | .vfloat _, .vnode _
  | .vfloat _, .vbuiltin _ | .vfloat _, .vns _
  | .vbool _, .vint _ | .vbool _, .vfloat _ | .vbool _, .vstr _ | .vbool _, .vnode _
  | .vbool _, .vbuiltin _ | .vbool _, .vns _
  | .vstr _, .vint _ | .vstr _, .vfloat _ | .vstr _, .vbool _ | .vstr _, .vnode _
  | .vstr _, .vbuiltin _ | .vstr _, .vns _
  | .vnode _, .vint _ | .vnode _, .vfloat _ | .vnode _, .vbool _ | .vnode _, .vstr _
  | .vnode _, .vbuiltin _ | .vnode _, .vns _
  | .vbuiltin _, .vint _ | .vbuiltin _, .vfloat _ | .vbuiltin _, .vbool _
  | .vbuiltin _, .vstr _ | .vbuiltin _, .vnode _ | .vbuiltin _, .vns _
  | .vns _, .vint _ | .vns _, .vfloat _ | .vns _, .vbool _ | .vns _, .vstr _
  | .vns _, .vnode _ | .vns _, .vbuiltin _ => by simp [beqValue]

theorem beqValuePairs_iff : ∀ a b, beqValuePairs a b = true ↔ a = b
  | [], [] => by simp [beqValuePairs]
  | [], _ :: _ => by simp [beqValuePairs]
  | _ :: _, [] => by simp [beqValuePairs]
  | (k1, v1) :: xs, (k2, v2) :: ys => by
    simp [beqValuePairs, beqValue_iff v1 v2, beqValuePairs_iff xs ys, and_assoc]

end

instance : DecidableEq Value := fun a b => decidable_of_iff _ (beqValue_iff a b)

/-! ## Python primitive conversions

`Table._eval_literal` and `get_boolean_value` rely on the host conversions
`int(str)`, `float(str)`, `bool(x)` and `str(x)`.  They are modelled here
exactly for the cases the evaluator can reach: decimal integer literals
with optional sign, surrounding whitespace and PEP-515 single underscores
between digits, and finite decimal floating literals (IEEE infinities and
NaN are outside the model, as is IEEE rounding: floats are exact
rationals). -/

/-- Strip leading and trailing whitespace, as Python's `int`/`float` do. -/
def trimWs (cs : List Char) : List Char :=
  ((cs.dropWhile Char.isWhitespace).reverse.dropWhile Char.isWhitespace).reverse

/-- Parse a run of decimal digits allowing single underscores between
digits (PEP 515).  Returns the value and the number of digits. -/
def pyDigitsAux : List Char → Nat → Nat → Option (Nat × Nat)
  | [], acc, cnt => some (acc, cnt)
  | '_' :: c :: rest, acc, cnt =>
    if c.isDigit then pyDigitsAux rest (acc * 10 + (c.toNat - 48)) (cnt + 1) else none
  | c :: rest, acc, cnt =>
    if c.isDigit then pyDigitsAux rest (acc * 10 + (c.toNat - 48)) (cnt + 1) else none

/-- Parse a non-empty underscore-separated digit run (must start with a
digit, underscores only between digits). -/
def pyParseDigits (cs : List Char) : Option (Nat × Nat) :=
  match cs with
  | c :: rest => if c.isDigit then pyDigitsAux rest (c.toNat - 48) 1 else none
  | [] => none

/-- Python `int(s)` on a decimal string: optional surrounding whitespace,
optional sign, digit run. -/
def pyParseInt (s : String) : Option Int :=
  match trimWs s.toList with
  | '+' :: rest => (pyParseDigits rest).map (fun p => (p.1 : Int))
  | '-' :: rest => (pyParseDigits rest).map (fun p => -(p.1 : Int))
  | cs => (pyParseDigits cs).map (fun p => (p.1 : Int))

/-- Helper for `pyParseFloat`: digits-or-underscore characters. -/
def isDigitU (c : Char) : Bool := c.isDigit || c = '_'

/-- Parse the exponent tail `(e|E)[+|-]digits` of a float literal. -/
def pyParseExp (cs : List Char) : Option Int :=
  match cs with
  | [] => some 0
  | 'e' :: rest | 'E' :: rest =>
    match rest with
    | '+' :: ds => (pyParseDigits ds).map (fun p => (p.1 : Int))
    | '-' :: ds => (pyParseDigits ds).map (fun p => -(p.1 : Int))
    | ds => (pyParseDigits ds).map (fun p => (p.1 : Int))
  | _ => none

/-- Assemble `(iv + fv/10^fn) * 10^e` as an exact rational.  Only `mkRat`
and natural-number arithmetic are used so the definition evaluates inside
the kernel. -/
def ratOfParts (iv fv fn : Nat) (e : Int) : Rat :=
  let n : Nat := iv * 10 ^ fn + fv
  if 0 ≤ e then mkRat ((n : Int) * ((10 : Int) ^ e.toNat)) (10 ^ fn)
  else mkRat (n : Int) (10 ^ fn * 10 ^ (-e).toNat)

/-- Python `float(s)` for finite decimal literals, as an exact rational. -/
def pyParseFloat (s : String) : Option Rat :=
  let core : List Char → Option Rat := fun cs =>
    let ip := cs.takeWhile isDigitU
    let rest := cs.dropWhile isDigitU
    match rest with
    | '.' :: rest2 =>
      let fp := rest2.takeWhile isDigitU
      let rest3 := rest2.dropWhile isDigitU
      match ip, fp with
      | [], [] => none
      | [], _ =>
        match pyParseDigits fp with
        | some (fv, fn) => (pyParseExp rest3).map (ratOfParts 0 fv fn)
        | none => none
      | _, [] =>
        match pyParseDigits ip with
        | some (iv, _) => (pyParseExp rest3).map (ratOfParts iv 0 0)
        | none => none
      | _, _ =>
        match pyParseDigits ip, pyParseDigits fp with
        | some (iv, _), some (fv, fn) => (pyParseExp rest3).map (ratOfParts iv fv fn)
        | _, _ => none
    | tail =>
      match ip with
      | [] => none
      | _ =>
        match pyParseDigits ip with
        | some (iv, _) =>
          match tail with
          | [] => some (ratOfParts iv 0 0 0)
          | 'e' :: _ | 'E' :: _ => (pyParseExp tail).map (ratOfParts iv 0 0)
          | _ => none
        | none => none
  match trimWs s.toList with
  | '+' :: rest => core rest
  | '-' :: rest => (core rest).map Neg.neg
  | cs => core cs

/-- Python truthiness `bool(x)` for the value types the evaluator handles.
DOM elements and builtin callables are plain objects and always truthy;
`NameSpace` is a dict, truthy iff non-empty. -/
def pyTruth : Value → Bool
  | .vint i => decide (i ≠ 0)
  | .vfloat q => decide (q ≠ 0)
  | .vbool b => b
  | .vstr s => decide (s ≠ "")
  | .vnode _ => true
  | .vbuiltin _ => true
  | .vns es => !es.isEmpty

/-- Python `repr`/`str` of a float, for the exactly representable decimal
cases (`0.5 ↦ "0.5"`, `1 ↦ "1.0"`); other rationals fall back to the
fraction notation (unreachable from the literals the claims exercise). -/
def pyFloatRepr (q : Rat) : String :=
  if q.den = 1 then toString q.num ++ ".0"
  else
    match (List.range 18).find?
        (fun k => (q.mul (mkRat ((10 : Int) ^ k) 1)).den = 1) with
    | some k =>
      let n := (q.mul (mkRat ((10 : Int) ^ k) 1)).num
      let sgn := if n < 0 then "-" else ""
      let digs := toString n.natAbs
      let digs := String.mk (List.replicate (k + 1 - digs.length) '0') ++ digs
      sgn ++ digs.dropRight k ++ "." ++ digs.takeRight k
    | none => toString q

/-- Python `str(x)` (`unicode` in the source) on evaluator values. -/
def pyStr : Value → String
  | .vint i => toString i
  | .vfloat q => pyFloatRepr q
  | .vbool b => if b then "True" else "False"
  | .vstr s => s
  | .vnode _ => "[dom-element]"
  | .vbuiltin n => "[builtin " ++ n ++ "]"
  | .vns _ => "[namespace]"

/-- `get_boolean_value(value, condition)` from the source: strings
`"true"/"True"` and `"false"/"False"` map to the booleans, any other
string is coerced through `bool(int(value))` (raising the bad-conditional
error when `int` fails), and every non-string value is coerced through
plain Python truthiness `bool(value)`. -/
def getBooleanValue (value : Value) (cond : Option String) : Except XErr Bool :=
  match value with
  | .vstr s =>
    if s = "true" ∨ s = "True" then .ok true
    else if s = "false" ∨ s = "False" then .ok false
    else
      match pyParseInt s with
      | some n => .ok (decide (n ≠ 0))
      | none => .error (.badConditional (cond.getD ""))
  | v => .ok (pyTruth v)

/-- `Table._eval_literal` on a string: strip a single pair of surrounding
single quotes; otherwise keep strings containing an underscore verbatim;
otherwise try `int`, then `float`, then boolean (via `get_boolean_value`),
in that order, and keep the text when all fail. -/
def evalLiteral (s : String) : Value :=
  let cs := s.toList
  if 2 ≤ cs.length ∧ cs.head? = some '\'' ∧ cs.getLast? = some '\'' then
    .vstr (String.mk (cs.drop 1).dropLast)
  else if cs.contains '_' then .vstr s
  else
    match pyParseInt s with
    | some n => .vint n
    | none =>
      match pyParseFloat s with
      | some q => .vfloat q
      | none =>
        match getBooleanValue (.vstr s) none with
        | .ok b => .vbool b
        | .error _ => .vstr s

/-- `Table._eval_literal` on an arbitrary value: non-strings are returned
unchanged. -/
def evalLiteralV : Value → Value
  | .vstr s => evalLiteral s
  | v => v

/-- Python `int(x)` truncation toward zero on an exact rational. -/
def pyTruncRat (q : Rat) : Int := q.num / (q.den : Int)

/-- The boolean coercion exactly as the claim words it (refinement
reference, not translated from the source): `"true"/"True" → true`,
`"false"/"False" → false`, and **every other** evaluated result `x`,
string or typed, yields `bool(int(x))`; a value on which that coercion
fails is the bad-conditional error. -/
def specBoolCoerce (value : Value) (cond : Option String) : Except XErr Bool :=
  match value with
  | .vstr s =>
    if s = "true" ∨ s = "True" then .ok true
    else if s = "false" ∨ s = "False" then .ok false
    else
      match pyParseInt s with
      | some n => .ok (decide (n ≠ 0))
      | none => .error (.badConditional (cond.getD ""))
  | .vint i => .ok (decide (i ≠ 0))
  | .vfloat q => .ok (decide (pyTruncRat q ≠ 0))
  | .vbool b => .ok b
  | _ => .error (.badConditional (cond.getD ""))

/-- Decidable equality for `Except` results, so concrete evaluator runs
can be checked by `decide`. -/
instance {e a : Type} [DecidableEq e] [DecidableEq a] :
    DecidableEq (Except e a) := fun x y =>
  match x, y with
  | .ok v, .ok w =>
    if h : v = w then .isTrue (h ▸ rfl)
    else .isFalse (fun hh => h (Except.ok.inj hh))
  | .error v, .error w =>
    if h : v = w then .isTrue (h ▸ rfl)
    else .isFalse (fun hh => h (Except.error.inj hh))
  | .ok _, .error _ => .isFalse Except.noConfusion
  | .error _, .ok _ => .isFalse Except.noConfusion

/-! ## The attribute-text lexer (`QuickLexer` with the `LEXER` rules)

The four rules, tried top-down on the remaining input, exactly as the
regular expressions in the source:
`DOLLAR_DOLLAR_BRACE = ^\$\$+(\{|\()`, `EXPR = ^\$\{[^\}]*\}`,
`EXTENSION = ^\$\([^\)]*\)`, `TEXT = [^$]+|\$[^{($]+|\$$`.
Payload is the whole match (`m.group(0)`); consumers strip delimiters. -/

inductive TokKind where
  | ddbrace
  | expr
  | ext
  | text
deriving Repr, DecidableEq

/-- `DOLLAR_DOLLAR_BRACE`: a maximal run of at least two dollars followed
by `{` or `(` (the regex cannot backtrack below two dollars, and the
following character must be a bracket). -/
def matchDollarBrace (cs : List Char) : Option (List Char × List Char) :=
  let ds := cs.takeWhile (· = '$')
  if 2 ≤ ds.length then
    match cs.dropWhile (· = '$') with
    | '{' :: r => some (ds ++ ['{'], r)
    | '(' :: r => some (ds ++ ['('], r)
    | _ => none
  else none

/-- `EXPR`: `${` then the shortest run without `}` then `}`. -/
def matchExprTok (cs : List Char) : Option (List Char × List Char) :=
  match cs with
  | '$' :: '{' :: r =>
    match r.dropWhile (· ≠ '}') with
    | '}' :: r2 => some ('$' :: '{' :: (r.takeWhile (· ≠ '}') ++ ['}']), r2)
    | _ => none
  | _ => none

/-- `EXTENSION`: `$(` then the shortest run without `)` then `)`. -/
def matchExtTok (cs : List Char) : Option (List Char × List Char) :=
  match cs with
  | '$' :: '(' :: r =>
    match r.dropWhile (· ≠ ')') with
    | ')' :: r2 => some ('$' :: '(' :: (r.takeWhile (· ≠ ')') ++ [')']), r2)
    | _ => none
  | _ => none

/-- `TEXT`: a maximal run without `$`, or `$` followed by a maximal
non-empty run avoiding `{`, `(` and `$`, or a single trailing `$`. -/
def matchTextTok (cs : List Char) : Option (List Char × List Char) :=
  match cs with
  | [] => none
  | '$' :: rest =>
    let run := rest.takeWhile (fun c => c ≠ '{' ∧ c ≠ '(' ∧ c ≠ '$')
    if run.isEmpty then
      if rest.isEmpty then some (['$'], []) else none
    else some ('$' :: run, rest.drop run.length)
  | _ =>
    let run := cs.takeWhile (· ≠ '$')
    some (run, cs.drop run.length)

/-- One `QuickLexer.next()` step: the four rules in priority order. -/
def lexStep (cs : List Char) : Option ((TokKind × List Char) × List Char) :=
  match matchDollarBrace cs with
  | some (tok, rest) => some ((.ddbrace, tok), rest)
  | none =>
    match matchExprTok cs with
    | some (tok, rest) => some ((.expr, tok), rest)
    | none =>
      match matchExtTok cs with
      | some (tok, rest) => some ((.ext, tok), rest)
      | none =>
        match matchTextTok cs with
        | some (tok, rest) => some ((.text, tok), rest)
        | none => none

/-- Drive the lexer over the whole input; an unmatched non-empty suffix is
the `invalid expression` lexer error. -/
def tokensOfAux : Nat → List Char → Except XErr (List (TokKind × List Char))
  | _, [] => .ok []
  | 0, _ :: _ => .error .outOfFuel
  | f + 1, cs =>
    match lexStep cs with
    | some (tok, rest) =>
      match tokensOfAux f rest with
      | .ok ts => .ok (tok :: ts)
      | .error e => .error e
    | none => .error (.lexError (String.mk cs))

/-- Tokenize a string (fuel `length + 1` always suffices: every rule
consumes at least one character). -/
def tokensOf (s : String) : Except XErr (List (TokKind × List Char)) :=
  tokensOfAux (s.toList.length + 1) s.toList

/-! ## The bounded Python expression language of `safe_eval`

`safe_eval` compiles and evaluates an arbitrary Python expression; the
model covers the sublanguage the evaluator's claims exercise: integer,
float, string and boolean literals, identifiers, dotted attribute access
(namespace traversal), `+`, `-`, `*` and parentheses.  `collectNames`
plays the role of `code.co_names` (identifiers and attribute names). -/

inductive PyExpr where
  | intLit (i : Int)
  | floatLit (q : Rat)
  | strLit (s : String)
  | boolLit (b : Bool)
  | name (n : String)
  | attrAccess (e : PyExpr) (field : String)
  | add (a b : PyExpr)
  | sub (a b : PyExpr)
  | mul (a b : PyExpr)
deriving Repr, DecidableEq

/-- The names a compiled expression references (`code.co_names`):
identifier loads and attribute names. -/
def collectNames : PyExpr → List String
  | .name n => [n]
  | .attrAccess e fld => collectNames e ++ [fld]
  | .add a b => collectNames a ++ collectNames b
  | .sub a b => collectNames a ++ collectNames b
  | .mul a b => collectNames a ++ collectNames b
  | _ => []

def isIdentStart (c : Char) : Bool := c.isAlpha || c = '_'

def isIdentChar (c : Char) : Bool := c.isAlphanum || c = '_'

def skipWs (cs : List Char) : List Char := cs.dropWhile Char.isWhitespace

/-- Python `str.strip()` (and the `expr.strip()` in `safe_eval`), on the
character list so it evaluates in the kernel. -/
def pyStrip (s : String) : String := String.mk (trimWs s.toList)

/-- `str.startswith(prefix)`, list-based so it evaluates in the kernel. -/
def strStartsWith (s p : String) : Bool := p.toList.isPrefixOf s.toList

/-- Parse a numeric literal (digits, optional fraction, optional
exponent); underscores in expression literals are outside the subset. -/
def parseNumLit (cs : List Char) : Option (PyExpr × List Char) :=
  let ip := cs.takeWhile Char.isDigit
  let rest := cs.dropWhile Char.isDigit
  let readExp : List Char → Option (Int × List Char) := fun l =>
    match l with
    | 'e' :: '+' :: ds | 'E' :: '+' :: ds =>
      let es := ds.takeWhile Char.isDigit
      match pyParseDigits es with
      | some (ev, _) => some ((ev : Int), ds.drop es.length)
      | none => none
    | 'e' :: '-' :: ds | 'E' :: '-' :: ds =>
      let es := ds.takeWhile Char.isDigit
      match pyParseDigits es with
      | some (ev, _) => some (-(ev : Int), ds.drop es.length)
      | none => none
    | 'e' :: ds | 'E' :: ds =>
      let es := ds.takeWhile Char.isDigit
      match pyParseDigits es with
      | some (ev, _) => some ((ev : Int), ds.drop es.length)
      | none => none
    | _ => none
  match ip with
  | [] =>
    match cs with
    | '.' :: r =>
      let fp := r.takeWhile Char.isDigit
      match pyParseDigits fp with
      | some (fv, fn) =>
        let r2 := r.drop fp.length
        match readExp r2 with
        | some (e, r3) => some (.floatLit (ratOfParts 0 fv fn e), r3)
        | none => some (.floatLit (ratOfParts 0 fv fn 0), r2)
      | none => none
    | _ => none
  | _ =>
    match pyParseDigits ip with
    | none => none
    | some (iv, _) =>
      match rest with
      | '.' :: r =>
        let fp := r.takeWhile Char.isDigit
        let r2 := r.drop fp.length
        let fparts :=
          match pyParseDigits fp with
          | some (fv, fn) => some (fv, fn)
          | none => if fp.isEmpty then some (0, 0) else none
        match fparts with
        | none => none
        | some (fv, fn) =>
          match readExp r2 with
          | some (e, r3) => some (.floatLit (ratOfParts iv fv fn e), r3)
          | none => some (.floatLit (ratOfParts iv fv fn 0), r2)
      | 'e' :: _ | 'E' :: _ =>
        match readExp rest with
        | some (e, r3) => some (.floatLit (ratOfParts iv 0 0 e), r3)
        | none => none
      | _ => some (.intLit (iv : Int), rest)

mutual

/-- `expr := prod (('+'|'-') prod)*` -/
def parseSum : Nat → List Char → Option (PyExpr × List Char)
  | 0, _ => none
  | f + 1, cs =>
    match parseProd f cs with
    | some (a, rest) => parseSumTail f a rest
    | none => none

def parseSumTail : Nat → PyExpr → List Char → Option (PyExpr × List Char)
  | 0, _, _ => none
  | f + 1, a, cs =>
    match skipWs cs with
    | '+' :: rest =>
      match parseProd f rest with
      | some (b, rest2) => parseSumTail f (.add a b) rest2
      | none => none
    | '-' :: rest =>
      match parseProd f rest with
      | some (b, rest2) => parseSumTail f (.sub a b) rest2
      | none => none
    | _ => some (a, cs)

/-- `prod := postfix ('*' postfix)*` -/
def parseProd : Nat → List Char → Option (PyExpr × List Char)
  | 0, _ => none
  | f + 1, cs =>
    match parseAtomPost f cs with
    | some (a, rest) => parseProdTail f a rest
    | none => none

def parseProdTail : Nat → PyExpr → List Char → Option (PyExpr × List Char)
  | 0, _, _ => none
  | f + 1, a, cs =>
    match skipWs cs with
    | '*' :: rest =>
      match parseAtomPost f rest with
      | some (b, rest2) => parseProdTail f (.mul a b) rest2
      | none => none
    | _ => some (a, cs)

/-- An atom followed by a chain of `.field` attribute accesses. -/
def parseAtomPost : Nat → List Char → Option (PyExpr × List Char)
  | 0, _ => none
  | f + 1, cs =>
    match parseAtom f cs with
    | some (a, rest) => parseAttrTail f a rest
    | none => none

def parseAttrTail : Nat → PyExpr → List Char → Option (PyExpr × List Char)
  | 0, _, _ => none
  | f + 1, a, cs =>
    match skipWs cs with
    | '.' :: rest =>
      let idr := rest.takeWhile isIdentChar
      if idr.isEmpty ∨ ¬ isIdentStart (idr.headD 'x') then none
      else parseAttrTail f (.attrAccess a (String.mk idr)) (rest.drop idr.length)
    | _ => some (a, cs)

def parseAtom : Nat → List Char → Option (PyExpr × List Char)
  | 0, _ => none
  | f + 1, cs =>
    match skipWs cs with
    | '(' :: rest =>
      match parseSum f rest with
      | some (e, rest2) =>
        match skipWs rest2 with
        | ')' :: rest3 => some (e, rest3)
        | _ => none
      | none => none
    | '\'' :: rest =>
      let inner := rest.takeWhile (· ≠ '\'')
      match rest.dropWhile (· ≠ '\'') with
      | '\'' :: rest2 => some (.strLit (String.mk inner), rest2)
      | _ => none
    | '"' :: rest =>
      let inner := rest.takeWhile (· ≠ '"')
      match rest.dropWhile (· ≠ '"') with
      | '"' :: rest2 => some (.strLit (String.mk inner), rest2)
      | _ => none
    | c :: rest =>
      if c.isDigit ∨ (c = '.' ∧ (rest.headD ' ').isDigit) then
        parseNumLit (c :: rest)
      else if isIdentStart c then
        let idr := (c :: rest).takeWhile isIdentChar
        let nm := String.mk idr
        let rest2 := (c :: rest).drop idr.length
        if nm = "True" then some (.boolLit true, rest2)
        else if nm = "False" then some (.boolLit false, rest2)
        else some (.name nm, rest2)
      else none
    | [] => none

end

/-- `compile(expr, "<expression>", "eval")` on the modelled sublanguage:
parse the whole string (surrounding whitespace allowed), or `None` for a
syntax error. -/
def parseExpr (s : String) : Option PyExpr :=
  let cs := s.toList
  match parseSum (2 * cs.length + 8) cs with
  | some (e, rest) => if skipWs rest = [] then some e else none
  | none => none

/-! ## Association-list dictionaries

Python dicts (insertion ordered, unique keys) are modelled as association
lists; `setD` updates in place or appends, matching dict assignment. -/

/-- Dict lookup. -/
def lookupD {α : Type} : List (String × α) → String → Option α
  | [], _ => none
  | (k', v) :: rest, k => if k' = k then some v else lookupD rest k

/-- Dict membership. -/
def containsD {α : Type} (es : List (String × α)) (k : String) : Bool :=
  (lookupD es k).isSome

/-- Dict assignment: replace in place, or append. -/
def setD {α : Type} : List (String × α) → String → α → List (String × α)
  | [], k, v => [(k, v)]
  | (k', v') :: rest, k, v =>
    if k' = k then (k, v) :: rest else (k', v') :: setD rest k v

/-- Dict deletion (`dict.pop(key, None)`). -/
def eraseD {α : Type} : List (String × α) → String → List (String × α)
  | [], _ => []
  | (k', v') :: rest, k => if k' = k then rest else (k', v') :: eraseD rest k

theorem lookupD_mem_keys {α : Type} {es : List (String × α)} {k : String} {v : α}
    (h : lookupD es k = some v) : k ∈ es.map Prod.fst := by
  induction es with
  | nil => simp [lookupD] at h
  | cons p rest ih =>
    obtain ⟨pk, pv⟩ := p
    by_cases hp : pk = k
    · subst hp; simp
    · simp only [lookupD, if_neg hp] at h
      simp [ih h]

theorem lookupD_none_of_not_mem {α : Type} {es : List (String × α)} {k : String}
    (h : k ∉ es.map Prod.fst) : lookupD es k = none := by
  cases hl : lookupD es k with
  | none => rfl
  | some v => exact absurd (lookupD_mem_keys hl) h

theorem lookupD_eraseD_self {α : Type} (es : List (String × α)) (k : String)
    (hnd : (es.map Prod.fst).Nodup) : lookupD (eraseD es k) k = none := by
  induction es with
  | nil => simp [eraseD, lookupD]
  | cons p rest ih =>
    obtain ⟨k', v'⟩ := p
    simp only [List.map_cons, List.nodup_cons] at hnd
    by_cases h : k' = k
    · subst h
      simp only [eraseD, if_pos rfl]
      exact lookupD_none_of_not_mem hnd.1
    · simp only [eraseD, if_neg h, lookupD, if_neg h]
      exact ih hnd.2

theorem lookupD_eraseD_other {α : Type} (es : List (String × α)) (k k' : String)
    (h : k' ≠ k) : lookupD (eraseD es k) k' = lookupD es k' := by
  induction es with
  | nil => simp [eraseD, lookupD]
  | cons p rest ih =>
    obtain ⟨pk, pv⟩ := p
    by_cases hp : pk = k
    · subst hp
      simp [eraseD, lookupD, if_neg (fun hh : pk = k' => h hh.symm)]
    · by_cases hp' : pk = k'
      · subst hp'
        simp [eraseD, lookupD, if_neg hp]
      · simp [eraseD, lookupD, if_neg hp, if_neg hp', ih]

/-! ## Symbol table (`Table`)

A `Table` chain is a list of scopes (innermost first) over the plain root
dict `_global_symbols`.  Each scope carries the `unevaluated` set and the
`recursive` list of the source, plus the `NameSpace` marker used by
`grab_property`'s `scope="parent"` logic. -/

structure Scope where
  entries : List (String × Value)
  uneval : List String
  recur : List String
  isNS : Bool
deriving Repr, DecidableEq

/-- A fresh scope, as built by `Table(parent)`. -/
def Scope.fresh (isNS : Bool) : Scope := ⟨[], [], [], isNS⟩

/-- The whole symbol-table chain: non-root scopes (innermost first) over
the root `_global_symbols` dict; `launch` is the module-level flag that
switches `$(...)` extensions to verbatim pass-through. -/
structure SymTable where
  scopes : List Scope
  root : List (String × Value)
  launch : Bool
deriving Repr, DecidableEq

/-- In-place list update at an index. -/
def updateAt {α : Type} : List α → Nat → (α → α) → List α
  | [], _, _ => []
  | x :: xs, 0, f => f x :: xs
  | x :: xs, n + 1, f => x :: updateAt xs n f

/-- `Table.__contains__`: chain membership (no resolution). -/
def SymTable.containsChain (t : SymTable) (k : String) : Bool :=
  t.scopes.any (fun s => containsD s.entries k) || containsD t.root k

/-- `isinstance(value, _basestr)`. -/
def Value.isStr : Value → Bool
  | .vstr _ => true
  | _ => false

/-- `Table._setitem(key, value, unevaluated)` performed on the scope at
index `i` of the chain.  The root-shadowing warning is a diagnostic only
and is not modelled. -/
def SymTable.setItemAt (t : SymTable) (i : Nat) (k : String) (v : Value)
    (uneval : Bool) : SymTable :=
  let v := evalLiteralV v
  { t with scopes := updateAt t.scopes i (fun s =>
      let s := { s with entries := setD s.entries k v }
      if uneval ∧ v.isStr then
        { s with uneval := if s.uneval.contains k then s.uneval else s.uneval ++ [k] }
      else
        { s with uneval := s.uneval.erase k }) }

/-! ## Python binary arithmetic for the expression sublanguage -/

/-- Coerce a Python bool to int for arithmetic, leave numbers alone. -/
def numValue : Value → Option Value
  | .vbool b => some (.vint (if b then 1 else 0))
  | .vint i => some (.vint i)
  | .vfloat q => some (.vfloat q)
  | _ => none

/-- Numeric binary operation with Python int/float promotion.  Rational
operations are written with the `Rat.*` functions directly so the terms
evaluate inside the kernel. -/
def pyBinNum (fi : Int → Int → Int) (fq : Rat → Rat → Rat) (a b : Value) :
    Option Value :=
  match numValue a, numValue b with
  | some (.vint x), some (.vint y) => some (.vint (fi x y))
  | some (.vint x), some (.vfloat y) => some (.vfloat (fq (mkRat x 1) y))
  | some (.vfloat x), some (.vint y) => some (.vfloat (fq x (mkRat y 1)))
  | some (.vfloat x), some (.vfloat y) => some (.vfloat (fq x y))
  | _, _ => none

/-- Python `+`: string concatenation or numeric addition. -/
def pyAdd (a b : Value) : Option Value :=
  match a, b with
  | .vstr x, .vstr y => some (.vstr (x ++ y))
  | _, _ => pyBinNum (· + ·) Rat.add a b

/-- Python `-`: numeric subtraction. -/
def pySub (a b : Value) : Option Value := pyBinNum (· - ·) Rat.sub a b

/-- Python `*`: numeric multiplication (sequence repetition is outside
the modelled sublanguage). -/
def pyMul (a b : Value) : Option Value := pyBinNum (· * ·) Rat.mul a b

/-- Strip the two leading and one trailing delimiter characters from a
lexed `${...}` / `$(...)` token (`lex.next()[1][2:-1]`). -/
def stripWrap (cs : List Char) : String := String.mk (cs.drop 2).dropLast

/-- `eval_text`'s final composition: a single token's typed value is
returned as-is, otherwise all results are stringified and joined. -/
def composeResults (vs : List Value) : Value :=
  match vs with
  | [v] => v
  | _ => .vstr (String.join (vs.map pyStr))

/-- The empty `__builtins__` table installed by
`globals.update(__builtins__={})` in `safe_eval`: expression evaluation
has no builtin fallback whatsoever. -/
def emptyBuiltins : List (String × Value) := []

/-! ## The global symbol table (`create_global_symbols`)

Callable members are opaque `vbuiltin` markers (no claim invokes them);
the numeric constants `pi`, `e` and `tau` carry the exact rationals of the
IEEE doubles `math.pi`, `math.e`, `math.tau`; `inf` and `nan` are outside
the float model and omitted.  The `math` namespace contents are
representative rather than the full `math.__dict__` listing. -/

/-- The symbols of the `math` namespace (also exposed directly, without a
deprecation message). -/
def mathSymbols : List (String × Value) :=
  [("pi", .vfloat (mkRat 884279719003555 281474976710656)),
   ("e", .vfloat (mkRat 6121026514868073 2251799813685248)),
   ("tau", .vfloat (mkRat 884279719003555 140737488355328)),
   ("sqrt", .vbuiltin "sqrt"), ("sin", .vbuiltin "sin"),
   ("cos", .vbuiltin "cos"), ("tan", .vbuiltin "tan"),
   ("atan2", .vbuiltin "atan2"), ("floor", .vbuiltin "floor"),
   ("ceil", .vbuiltin "ceil"), ("fabs", .vbuiltin "fabs"),
   ("pow", .vbuiltin "pow"), ("log", .vbuiltin "log"),
   ("exp", .vbuiltin "exp"), ("radians", .vbuiltin "radians"),
   ("degrees", .vbuiltin "degrees")]

/-- The builtins exposed into the `python` namespace. -/
def pythonSymbols : List (String × Value) :=
  [("sorted", .vbuiltin "sorted"), ("range", .vbuiltin "range"),
   ("list", .vbuiltin "list"), ("dict", .vbuiltin "dict"),
   ("map", .vbuiltin "map"), ("len", .vbuiltin "len"),
   ("str", .vbuiltin "str"), ("float", .vbuiltin "float"),
   ("int", .vbuiltin "int"), ("True", .vbool true), ("False", .vbool false),
   ("min", .vbuiltin "min"), ("max", .vbuiltin "max"),
   ("round", .vbuiltin "round"), ("abs", .vbuiltin "abs"),
   ("all", .vbuiltin "all"), ("any", .vbuiltin "any"),
   ("complex", .vbuiltin "complex"), ("divmod", .vbuiltin "divmod"),
   ("enumerate", .vbuiltin "enumerate"), ("filter", .vbuiltin "filter"),
   ("frozenset", .vbuiltin "frozenset"), ("hash", .vbuiltin "hash"),
   ("isinstance", .vbuiltin "isinstance"), ("issubclass", .vbuiltin "issubclass"),
   ("ord", .vbuiltin "ord"), ("repr", .vbuiltin "repr"),
   ("reversed", .vbuiltin "reversed"), ("slice", .vbuiltin "slice"),
   ("set", .vbuiltin "set"), ("sum", .vbuiltin "sum"),
   ("tuple", .vbuiltin "tuple"), ("type", .vbuiltin "type"),
   ("vars", .vbuiltin "vars"), ("zip", .vbuiltin "zip")]

/-- The `xacro` namespace. -/
def xacroSymbols : List (String × Value) :=
  [("load_yaml", .vbuiltin "load_yaml"), ("abs_filename", .vbuiltin "abs_filename"),
   ("dotify", .vbuiltin "dotify"), ("arg", .vbuiltin "arg"),
   ("message", .vbuiltin "message"), ("warning", .vbuiltin "warning"),
   ("error", .vbuiltin "error"), ("print_location", .vbuiltin "print_location"),
   ("fatal", .vbuiltin "fatal"), ("tokenize", .vbuiltin "tokenize")]

/-- `_global_symbols = create_global_symbols()`: the directly exposed
builtins (including the deprecated direct aliases), the `math` members
both under the `math` namespace and at top level, and the `python` and
`xacro` namespaces. -/
def globalSymbols : List (String × Value) :=
  [("list", .vbuiltin "list"), ("dict", .vbuiltin "dict"),
   ("map", .vbuiltin "map"), ("len", .vbuiltin "len"),
   ("str", .vbuiltin "str"), ("float", .vbuiltin "float"),
   ("int", .vbuiltin "int"), ("True", .vbool true), ("False", .vbool false),
   ("min", .vbuiltin "min"), ("max", .vbuiltin "max"),
   ("round", .vbuiltin "round"),
   ("python", .vns pythonSymbols),
   ("sorted", .vbuiltin "sorted"), ("range", .vbuiltin "range"),
   ("math", .vns mathSymbols)]
  ++ mathSymbols
  ++ [("xacro", .vns xacroSymbols),
      ("load_yaml", .vbuiltin "load_yaml"),
      ("abs_filename", .vbuiltin "abs_filename"),
      ("dotify", .vbuiltin "dotify")]

/-! ## Mutually recursive text / expression / symbol evaluation

`eval_text` drives the lexer and evaluates `${...}` tokens through
`safe_eval`; identifier lookup goes through `Table.__getitem__`, whose
lazy `_resolve_` re-enters `eval_text`.  The mutual block is structural on
the fuel argument, so every function evaluates inside the kernel; with
enough fuel the result is exactly what the (unboundedly recursive) Python
computes. -/

mutual

/-- `Table.__getitem__`: walk the scope chain, resolving lazily at the
scope that locally holds the key; a miss at the root is a `KeyError`. -/
def lookupResolve : Nat → SymTable → String → Except XErr (Value × SymTable)
  | 0, _, _ => .error .outOfFuel
  | f + 1, t, k =>
    match t.scopes with
    | [] =>
      match lookupD t.root k with
      | some v => .ok (v, t)
      | none =>
        match lookupD emptyBuiltins k with
        | some v => .ok (v, t)
        | none => .error (.keyError k)
    | s :: rest =>
      if containsD s.entries k then resolveHere f t k
      else
        match lookupResolve f ⟨rest, t.root, t.launch⟩ k with
        | .ok (v, t') => .ok (v, ⟨s :: t'.scopes, t'.root, t'.launch⟩)
        | .error e => .error e

/-- `Table._resolve_` at the head scope: if the key is unevaluated,
detect cycles via the `recursive` list, re-evaluate the raw text in the
owning table, store the literal-coerced result and return it. -/
def resolveHere : Nat → SymTable → String → Except XErr (Value × SymTable)
  | 0, _, _ => .error .outOfFuel
  | f + 1, t, k =>
    match t.scopes with
    | [] => .error (.hostError "resolve on root")
    | s :: rest =>
      if s.uneval.contains k then
        if s.recur.contains k then
          .error (.circular (s.recur ++ [k]))
        else
          match lookupD s.entries k with
          | some (.vstr raw) =>
            let s1 := { s with recur := s.recur ++ [k] }
            match evalTextF f raw ⟨s1 :: rest, t.root, t.launch⟩ with
            | .error e => .error e
            | .ok (v, t') =>
              match t'.scopes with
              | s2 :: rest2 =>
                let v' := evalLiteralV v
                let s3 : Scope :=
                  ⟨setD s2.entries k v', s2.uneval.erase k, s2.recur.erase k, s2.isNS⟩
                .ok (v', ⟨s3 :: rest2, t'.root, t'.launch⟩)
              | [] => .error (.hostError "scope vanished")
          | _ => .error (.hostError "unevaluated non-string")
      else
        match lookupD s.entries k with
        | some v => .ok (v, t)
        | none => .error (.keyError k)

/-- `eval_text`: lex, evaluate every token, compose. -/
def evalTextF : Nat → String → SymTable → Except XErr (Value × SymTable)
  | 0, _, _ => .error .outOfFuel
  | f + 1, s, t =>
    match tokensOf s with
    | .error e => .error e
    | .ok toks =>
      match evalTokens f toks t with
      | .ok (vs, t') => .ok (composeResults vs, t')
      | .error e => .error e

/-- The token loop of `eval_text`: `${…}` through `handle_expr`, `$(…)`
through `handle_extension` (or verbatim in launch mode), `$$…{` with one
dollar stripped, text verbatim. -/
def evalTokens : Nat → List (TokKind × List Char) → SymTable →
    Except XErr (List Value × SymTable)
  | _, [], t => .ok ([], t)
  | 0, _ :: _, _ => .error .outOfFuel
  | f + 1, (k, txt) :: ts, t =>
    match k with
    | .ddbrace =>
      match evalTokens f ts t with
      | .ok (vs, t') => .ok (.vstr (String.mk (txt.drop 1)) :: vs, t')
      | .error e => .error e
    | .text =>
      match evalTokens f ts t with
      | .ok (vs, t') => .ok (.vstr (String.mk txt) :: vs, t')
      | .error e => .error e
    | .expr =>
      match handleExpr f (stripWrap txt) t with
      | .ok (v, t1) =>
        match evalTokens f ts t1 with
        | .ok (vs, t2) => .ok (v :: vs, t2)
        | .error e => .error e
      | .error e => .error e
    | .ext =>
      if t.launch then
        match evalTokens f ts t with
        | .ok (vs, t') => .ok (.vstr (String.mk txt) :: vs, t')
        | .error e => .error e
      else
        match handleExtension f (stripWrap txt) t with
        | .ok (v, t1) =>
          match evalTokens f ts t1 with
          | .ok (vs, t2) => .ok (v :: vs, t2)
          | .error e => .error e
        | .error e => .error e

/-- `handle_expr`: recursively text-evaluate the inner string, feed it to
`safe_eval`, and wrap any failure with the offending expression. -/
def handleExpr : Nat → String → SymTable → Except XErr (Value × SymTable)
  | 0, _, _ => .error .outOfFuel
  | f + 1, s, t =>
    match evalTextF f s t with
    | .error e => .error (.wrapped e ("when evaluating expression " ++ s))
    | .ok (v, t1) =>
      match safeEvalV f v t1 with
      | .error e => .error (.wrapped e ("when evaluating expression " ++ s))
      | .ok r => .ok r

/-- `safe_eval`: compile the (stripped) expression string, refuse any
referenced name starting with a double underscore before evaluating, then
evaluate with the empty `__builtins__` table. -/
def safeEvalV : Nat → Value → SymTable → Except XErr (Value × SymTable)
  | 0, _, _ => .error .outOfFuel
  | f + 1, .vstr s, t =>
    match parseExpr (pyStrip s) with
    | none => .error (.syntaxError s)
    | some e =>
      let bad := (collectNames e).filter (fun n => strStartsWith n "__")
      if bad.isEmpty then evalExpr f e t
      else .error (.invalidNames bad)
  | _ + 1, _, _ => .error (.typeError "compile() arg must be a string")

/-- `handle_extension` / `eval_extension`: the inner text is first
text-evaluated; actual substitution-argument resolution requires the
external `roslaunch` package (and `$(cwd)` the process state), so every
resolved extension is the corresponding failure here. -/
def handleExtension : Nat → String → SymTable → Except XErr (Value × SymTable)
  | 0, _, _ => .error .outOfFuel
  | f + 1, s, t =>
    match evalTextF f s t with
    | .error e => .error (.wrapped e ("when evaluating expression " ++ s))
    | .ok (v, _t1) => .error (.extensionUnsupported ("$(" ++ pyStr v ++ ")"))

/-- Evaluation of a compiled expression against the symbol table: name
loads go through `Table.__getitem__` and fall back only to the empty
builtins (hence `NameError`); attribute access traverses `NameSpace`
values. -/
def evalExpr : Nat → PyExpr → SymTable → Except XErr (Value × SymTable)
  | 0, _, _ => .error .outOfFuel
  | f + 1, e, t =>
    match e with
    | .intLit i => .ok (.vint i, t)
    | .floatLit q => .ok (.vfloat q, t)
    | .strLit s => .ok (.vstr s, t)
    | .boolLit b => .ok (.vbool b, t)
    | .name n =>
      match lookupResolve f t n with
      | .error (.keyError _) => .error (.nameError n)
      | r => r
    | .attrAccess a fld =>
      match evalExpr f a t with
      | .ok (.vns es, t1) =>
        match lookupD es fld with
        | some w => .ok (w, t1)
        | none => .error (.nameError fld)
      | .ok _ => .error (.typeError "attribute access outside namespaces")
      | .error e => .error e
    | .add a b =>
      match evalExpr f a t with
      | .ok (x, t1) =>
        match evalExpr f b t1 with
        | .ok (y, t2) =>
          match pyAdd x y with
          | some v => .ok (v, t2)
          | none => .error (.typeError "unsupported operand types for +")
        | .error e => .error e
      | .error e => .error e
    | .sub a b =>
      match evalExpr f a t with
      | .ok (x, t1) =>
        match evalExpr f b t1 with
        | .ok (y, t2) =>
          match pySub x y with
          | some v => .ok (v, t2)
          | none => .error (.typeError "unsupported operand types for -")
        | .error e => .error e
      | .error e => .error e
    | .mul a b =>
      match evalExpr f a t with
      | .ok (x, t1) =>
        match evalExpr f b t1 with
        | .ok (y, t2) =>
          match pyMul x y with
          | some v => .ok (v, t2)
          | none => .error (.typeError "unsupported operand types for *")
        | .error e => .error e
      | .error e => .error e

end

/-- `Table.__delitem__`: remove `key` from every scope of the chain up to
but not including the root; the returned flag records whether the
"Cannot remove global symbol" diagnostic is emitted (the root still holds
the key).  The root dict is never modified, and `unevaluated` sets are
left untouched (as in the source). -/
def SymTable.delItem (t : SymTable) (k : String) : SymTable × Bool :=
  ({ t with scopes := t.scopes.map (fun s => { s with entries := eraseD s.entries k }) },
   containsD t.root k)

/-! ## Macro definitions, DOM helpers and the tree walker state

The destructive DOM helpers come from `xacro.xmlutils`, which is not part
of the sources under study; they are modelled from the specification's
description ("replace with list, set attribute, remove attribute, clone
deep, children iteration, node-type discrimination"). -/

/-- A macro definition (`class Macro`): the captured body element, the
ordered parameter list and the default map `param ↦ (forward?, default?)`.
The `history` field is diagnostics-only and omitted. -/
structure MacroDef where
  body : XNode
  params : List String
  defaultmap : List (String × (Option String × Option String))
deriving Repr, DecidableEq

/-- The macro table chain (innermost scope first) over the always-empty
root dict of `Table()`.  `NameSpace`-valued macro entries only arise from
`<xacro:include ns=…>`, which is outside this model (see
`processInclude`), so entries are plain macro definitions. -/
def MacroChain : Type := List (List (String × MacroDef))

instance : DecidableEq MacroChain := by unfold MacroChain; infer_instance

instance : Repr MacroChain := by unfold MacroChain; infer_instance

/-- `Table.__getitem__` on the macro table: plain chain lookup (macro
values are never unevaluated). -/
def lookupMacroChain : MacroChain → String → Option MacroDef
  | [], _ => none
  | sc :: rest, k =>
    match lookupD sc k with
    | some d => some d
    | none => lookupMacroChain rest k

/-- `resolve_macro`: try the full name against the chain; the dotted
namespace fallback traverses `NameSpace` macro tables, which only
`<xacro:include ns=…>` creates — outside this model the dotted path always
ends in the `KeyError` that `handle_macro_call` reports as an unknown
macro, so resolution is the plain chain lookup. -/
def resolveMacroName (macros : MacroChain) (fullname : String) : Option MacroDef :=
  lookupMacroChain macros fullname

/-- The mutable processing state threaded through the walker: the symbol
table chain, the macro table chain, and the substitution-argument context
(`substitution_args_context['arg']`). -/
structure St where
  syms : SymTable
  macros : MacroChain
  args : List (String × String)
deriving Repr, DecidableEq

/-- The processing environment: the file system visible to
`xacro:include`, mapping an (already resolved) filename to the parsed
document element.  Relative-path resolution against the file stack and
globbing are outside the model. -/
structure Ctx where
  fs : List (String × XNode)
deriving Repr, DecidableEq

/-- Modelled from the spec: `first_child_element` / `next_sibling_element`
iteration over a node's children is traversal of its element children in
document order. -/
def elemChildren : List XNode → List XNode
  | [] => []
  | .elem t a c :: rest => .elem t a c :: elemChildren rest
  | _ :: rest => elemChildren rest

/-- Modelled from the spec: `opt_attrs` returns the attribute value when
present (the empty string is a present value) and `None` otherwise;
`reqd_attrs` raises on `None`. -/
def getAttrOpt (attrs : List (String × String)) (n : String) : Option String :=
  lookupD attrs n

/-- The tag of an element node (empty for text/comments). -/
def XNode.tag : XNode → String
  | .elem t _ _ => t
  | _ => ""

/-- The attributes of an element node. -/
def XNode.attrs : XNode → List (String × String)
  | .elem _ a _ => a
  | _ => []

/-- The children of an element node. -/
def XNode.children : XNode → List XNode
  | .elem _ _ c => c
  | _ => []

/-- Python `str.isspace()`. -/
def pyIsSpace (s : String) : Bool :=
  !s.toList.isEmpty && s.toList.all Char.isWhitespace

/-- A text node that `remove_previous_comments` skips over: whitespace
with at most one newline. -/
def isWs1 : XNode → Bool
  | .text d _ => pyIsSpace d && d.toList.count '\n' ≤ 1
  | _ => false

def isCommentNode : XNode → Bool
  | .comment _ => true
  | _ => false

/-- The `_empty_text_node` sentinel.  In the source it is a single node
object that `insertBefore` relocates; here each insertion emits a fresh
flagged copy (the relocation of the singleton across positions is not
observable by the claims under study). -/
def sentinelNode : XNode := .text "\n\n" true

/-- The backward walk of `remove_previous_comments` over the already
emitted siblings (reversed list): skip at most one whitespace text node,
remove a comment and continue; stop at anything else.  The flag records
whether the loop exited through the `else` branch (which inserts the
sentinel when a next sibling exists). -/
def stripPrevRev : List XNode → List XNode × Bool
  | [] => ([], false)
  | t :: rest =>
    if isWs1 t then
      match rest with
      | [] => ([t], true)
      | c :: rest' =>
        if isCommentNode c then
          let (r, b) := stripPrevRev rest'
          (t :: r, b)
        else (t :: c :: rest', true)
    else if isCommentNode t then stripPrevRev rest
    else (t :: rest, true)

/-- `remove_previous_comments` acting on the emitted-sibling list. -/
def stripPrevComments (acc : List XNode) : List XNode × Bool :=
  let (r, b) := stripPrevRev acc.reverse
  (r.reverse, b)

/-- Whether a node is the `_empty_text_node` sentinel. -/
def XNode.isSent : XNode → Bool
  | .text _ s => s
  | _ => false

/-- Emit the replacement nodes and, when `remove_previous_comments`
stopped at a non-comment and a next sibling exists (`ins`), insert the
sentinel after them.  The sentinel is the singleton `_empty_text_node`:
`insertBefore` relocates it, so any earlier occurrence disappears. -/
def placeSentinel (acc repl : List XNode) (ins : Bool) : List XNode :=
  if ins then acc.filter (fun n => ! n.isSent) ++ repl ++ [sentinelNode]
  else acc ++ repl

/-- `import_xml_namespaces`: copy `xmlns:*` declarations to the parent,
keeping an existing conflicting declaration (with a warning). -/
def importXmlNamespaces (parentAttrs : List (String × String))
    (attrs : List (String × String)) : List (String × String) :=
  attrs.foldl (fun pa nv =>
    if strStartsWith nv.1 "xmlns:" then
      match lookupD pa nv.1 with
      | some old => if old ≠ nv.2 then pa else setD pa nv.1 nv.2
      | none => setD pa nv.1 nv.2
    else pa) parentAttrs

/-- `str.__contains__` on strings (the `xacro:eval-comments` pragma
check), via list infixes so it evaluates in the kernel. -/
def listIsInfixOf (p : List Char) : List Char → Bool
  | [] => p.isEmpty
  | c :: rest => p.isPrefixOf (c :: rest) || listIsInfixOf p rest

def containsSubstr (hay pat : String) : Bool :=
  listIsInfixOf pat.toList hay.toList

/-- The Python keywords `is_valid_name` must exclude (an identifier that
is a keyword does not parse to a `Name` node). -/
def pyKeywords : List String :=
  ["False", "None", "True", "and", "as", "assert", "async", "await",
   "break", "class", "continue", "def", "del", "elif", "else", "except",
   "finally", "for", "from", "global", "if", "import", "in", "is",
   "lambda", "nonlocal", "not", "or", "pass", "raise", "return", "try",
   "while", "with", "yield"]

/-- `is_valid_name`: a non-keyword Python identifier. -/
def isValidName (n : String) : Bool :=
  match n.toList with
  | [] => false
  | c :: rest => isIdentStart c && rest.all isIdentChar && !pyKeywords.contains n

/-- `Table._setitem` restricted to one scope (the chain-position
bookkeeping lives in `SymTable.setItemAt`; macro expansion builds the new
local scope directly). -/
def scopeSetItem (sc : Scope) (k : String) (v : Value) (uneval : Bool) : Scope :=
  let v := evalLiteralV v
  let sc := { sc with entries := setD sc.entries k v }
  if uneval ∧ v.isStr then
    { sc with uneval := if sc.uneval.contains k then sc.uneval else sc.uneval ++ [k] }
  else { sc with uneval := sc.uneval.erase k }

/-! ## `parse_macro_arg` -/

/-- The `(?:'.*?'|\".*?\"|[^\s'\"]+)+` alternative of `default_value`:
one or more quoted or bare chunks. -/
def readChunks : Nat → List Char → Option (List Char × List Char)
  | 0, _ => none
  | f + 1, cs =>
    match cs with
    | '\'' :: rest =>
      match rest.dropWhile (· ≠ '\'') with
      | '\'' :: r2 =>
        let chunk := '\'' :: (rest.takeWhile (· ≠ '\'') ++ ['\''])
        match readChunks f r2 with
        | some (m, r3) => some (chunk ++ m, r3)
        | none => some (chunk, r2)
      | _ => none
    | '"' :: rest =>
      match rest.dropWhile (· ≠ '"') with
      | '"' :: r2 =>
        let chunk := '"' :: (rest.takeWhile (· ≠ '"') ++ ['"'])
        match readChunks f r2 with
        | some (m, r3) => some (chunk ++ m, r3)
        | none => some (chunk, r2)
      | _ => none
    | c :: _ =>
      if c.isWhitespace ∨ c = '\'' ∨ c = '"' then none
      else
        let run := cs.takeWhile (fun d => ¬ d.isWhitespace ∧ d ≠ '\'' ∧ d ≠ '"')
        let r2 := cs.drop run.length
        match readChunks f r2 with
        | some (m, r3) => some (run ++ m, r3)
        | none => some (run, r2)
    | [] => none

/-- The `default_value` sub-expression: `${…}`, `$(…)`, a chunk sequence,
or empty. -/
def readDefaultValue (cs : List Char) : List Char × List Char :=
  match cs with
  | '$' :: '{' :: rr =>
    (match rr.dropWhile (· ≠ '}') with
     | '}' :: r3 => ('$' :: '{' :: (rr.takeWhile (· ≠ '}') ++ ['}']), r3)
     | _ =>
       match readChunks (cs.length + 1) cs with
       | some (m, r3) => (m, r3)
       | none => ([], cs))
  | '$' :: '(' :: rr =>
    (match rr.dropWhile (· ≠ ')') with
     | ')' :: r3 => ('$' :: '(' :: (rr.takeWhile (· ≠ ')') ++ [')']), r3)
     | _ =>
       match readChunks (cs.length + 1) cs with
       | some (m, r3) => (m, r3)
       | none => ([], cs))
  | _ =>
    match readChunks (cs.length + 1) cs with
    | some (m, r3) => (m, r3)
    | none => ([], cs)

/-- `parse_macro_arg`: parse one parameter spec
`<param>[:=|=][^|][<default>]` off the front of a parameter string; on a
regex mismatch fall back to whitespace splitting (an all-whitespace
non-empty string hits the host `IndexError`). -/
def parseMacroArg (s : String) :
    Except XErr (String × Option (Option String × Option String) × String) :=
  let cs1 := s.toList.dropWhile Char.isWhitespace
  let param := cs1.takeWhile (fun c => ¬ c.isWhitespace ∧ c ≠ ':' ∧ c ≠ '=')
  let rest1 := (cs1.drop param.length).dropWhile Char.isWhitespace
  let viaRegex : Option (String × (Option String × Option String) × String) :=
    if param.isEmpty then none
    else
      match rest1 with
      | ':' :: '=' :: r | '=' :: r =>
        let r1 := r.dropWhile Char.isWhitespace
        let (fwd, r2) :=
          match r1 with
          | '^' :: '|' :: rr => (true, rr)
          | '^' :: rr => (true, rr)
          | rr => (false, rr)
        let (dflt, r3) := readDefaultValue r2
        match r3 with
        | [] =>
          some (String.mk param,
                (if fwd then some (String.mk param) else none,
                 if dflt.isEmpty then none else some (String.mk dflt)), "")
        | c :: _ =>
          if c.isWhitespace then
            some (String.mk param,
                  (if fwd then some (String.mk param) else none,
                   if dflt.isEmpty then none else some (String.mk dflt)),
                  String.mk (r3.dropWhile Char.isWhitespace))
          else none
      | _ => none
  match viaRegex with
  | some (p, v, rest) => .ok (p, some v, rest)
  | none =>
    match cs1 with
    | [] => .error (.hostError "IndexError: empty parameter spec")
    | _ =>
      let p := cs1.takeWhile (fun c => ¬ c.isWhitespace)
      let rest := (cs1.drop p.length).dropWhile Char.isWhitespace
      .ok (String.mk p, none, String.mk rest)

/-- The `while params:` loop of `grab_macro`. -/
def parseParams : Nat → String → MacroDef → Except XErr MacroDef
  | 0, _, _ => .error .outOfFuel
  | f + 1, params, m =>
    if params = "" then .ok m
    else
      match parseMacroArg params with
      | .error e => .error e
      | .ok (param, value, rest) =>
        let m' : MacroDef :=
          ⟨m.body, m.params ++ [param],
           match value with
           | some v => setD m.defaultmap param v
           | none => m.defaultmap⟩
        parseParams f rest m'

/-- `grab_macro`: validate the name, fetch-or-create the macro in the
local macro scope (`dict.get` does not search the chain), capture the body
and re-parse the parameter list, then store it. -/
def grabMacroDecl (elt : XNode) (macros : MacroChain) : Except XErr MacroChain :=
  match getAttrOpt elt.attrs "name" with
  | none => .error (.missingAttribute "xacro:macro" "name")
  | some name0 =>
    if name0 = "call" then .error .macroNameIsCall
    else if name0.toList.contains '.' then .error (.macroNameHasDot name0)
    else
      let name := if strStartsWith name0 "xacro:"
        then String.mk (name0.toList.drop 6) else name0
      match macros with
      | [] => .error (.hostError "macro table has no scope")
      | sc :: rest =>
        -- `macros.get(name, Macro())` only matters for the (omitted)
        -- history: body, params and defaultmap are all reassigned
        let m1 : MacroDef := ⟨elt, [], []⟩
        match parseParams (((getAttrOpt elt.attrs "params").getD "").length + 1)
            ((getAttrOpt elt.attrs "params").getD "") m1 with
        | .error e => .error e
        | .ok m2 => .ok (setD sc name m2 :: rest)

/-- `eval_default_arg`: forwarded parameters read the caller's scope
(catching only `KeyError`), otherwise the default text is evaluated. -/
def evalDefaultArg (f : Nat) (fwd : Option String) (dflt : Option String)
    (syms : SymTable) : Except XErr (Value × SymTable) :=
  match fwd with
  | none =>
    match dflt with
    | some d => evalTextF f d syms
    | none => .error (.hostError "eval_default_arg without default")
  | some fv =>
    match lookupResolve f syms fv with
    | .ok r => .ok r
    | .error (.keyError _) =>
      match dflt with
      | some d => evalTextF f d syms
      | none => .error (.undefinedForward fv)
    | .error e => .error e

/-- The caller-attribute binding loop of `handle_macro_call`: each
attribute must name a parameter, is evaluated eagerly in the caller's
scope, bound in the fresh macro scope, and blanked on the call node. -/
def bindCallParams (f : Nat) :
    List (String × String) → List String → Scope → SymTable →
    List (String × String) →
    Except XErr (List String × Scope × SymTable × List (String × String))
  | [], params, sc, syms, cur => .ok (params, sc, syms, cur)
  | (an, av) :: todo, params, sc, syms, cur =>
    if params.contains an then
      match evalTextF f av syms with
      | .ok (v, syms') =>
        bindCallParams f todo (params.erase an) (scopeSetItem sc an v false)
          syms' (setD cur an "")
      | .error e => .error e
    else .error (.invalidParam an)

/-- The block-parameter loop: parameters starting with `*` consume the
call site's element children in order. -/
def consumeBlocks : List String → List XNode → Scope →
    Except XErr (List String × List XNode × Scope)
  | [], blocks, sc => .ok ([], blocks, sc)
  | p :: rest, blocks, sc =>
    if strStartsWith p "*" then
      match blocks with
      | [] => .error .notEnoughBlocks
      | b :: bs =>
        match consumeBlocks rest bs (scopeSetItem sc p (.vnode b) true) with
        | .ok r => .ok r
        | .error e => .error e
    else
      match consumeBlocks rest blocks sc with
      | .ok (ps, bs', sc') => .ok (p :: ps, bs', sc')
      | .error e => .error e

/-- The defaults loop of `handle_macro_call`: remaining non-block
parameters take their `(forward, default)` entry when one exists. -/
def bindDefaults (f : Nat) (m : MacroDef) :
    List String → Scope → SymTable →
    Except XErr (List String × Scope × SymTable)
  | [], sc, syms => .ok ([], sc, syms)
  | p :: rest, sc, syms =>
    if strStartsWith p "*" then
      match bindDefaults f m rest sc syms with
      | .ok (ps, sc', syms') => .ok (p :: ps, sc', syms')
      | .error e => .error e
    else
      match (lookupD m.defaultmap p).getD (none, none) with
      | (none, none) =>
        match bindDefaults f m rest sc syms with
        | .ok (ps, sc', syms') => .ok (p :: ps, sc', syms')
        | .error e => .error e
      | (fwd, dflt) =>
        match evalDefaultArg f fwd dflt syms with
        | .ok (v, syms') =>
          bindDefaults f m rest (scopeSetItem sc p v false) syms'
        | .error e => .error e

/-- The scope-target computation of `grab_property` for
`scope="parent"`: start at the parent and, when the defining table is not
a namespace, skip namespace scopes; reaching the plain root dict would be
the host `AttributeError`. -/
def parentScopeIndex (scopes : List Scope) : Option Nat :=
  match scopes with
  | [] => none
  | s0 :: rest =>
    if s0.isNS then if rest.isEmpty then none else some 1
    else
      match (List.range rest.length).find? (fun i =>
        match rest.get? i with
        | some s => !s.isNS
        | none => false) with
      | some i => some (i + 1)
      | none => none

/-- `grab_property`: validate and evaluate the name, decide between
remove / default / value / block binding, compute the target scope and
laziness, optionally evaluate greedily, and store.  The caller removes
the element (and its preceding comments) from the tree. -/
def grabProperty (f : Nat) (elt : XNode) (st : St) : Except XErr St :=
  match getAttrOpt elt.attrs "name" with
  | none => .error (.missingAttribute "xacro:property" "name")
  | some name0 =>
    let valueA := getAttrOpt elt.attrs "value"
    let defaultA := getAttrOpt elt.attrs "default"
    let removeA := getAttrOpt elt.attrs "remove"
    let scopeA := getAttrOpt elt.attrs "scope"
    let lazyA := getAttrOpt elt.attrs "lazy_eval"
    match evalTextF f name0 st.syms with
    | .error e => .error e
    | .ok (nv, syms1) =>
      match nv with
      | .vstr name =>
        if ¬ isValidName name then .error (.invalidPropertyName name)
        else if strStartsWith name "__" then .error (.doubleUnderscoreName name)
        else
          match evalTextF f (removeA.getD "false") syms1 with
          | .error e => .error e
          | .ok (rv, syms2) =>
            match getBooleanValue rv removeA with
            | .error e => .error e
            | .ok remove =>
              if (if valueA.isSome then 1 else 0) + (if defaultA.isSome then 1 else 0)
                  + (if remove then 1 else 0) > 1 then
                .error (.attrsExclusive name)
              else if remove ∧ syms2.containsChain name then
                .ok { st with syms := (syms2.delItem name).1 }
              else if defaultA.isSome ∧ syms2.containsChain name then
                .ok { st with syms := syms2 }
              else
                let valueB := match valueA with
                  | some _ => valueA
                  | none => defaultA
                let (name1, value1) := match valueB with
                  | none => ("**" ++ name, Value.vnode elt)
                  | some v => (name, Value.vstr v)
                match evalTextF f (lazyA.getD "true") syms2 with
                | .error e => .error e
                | .ok (lv, syms3) =>
                  match getBooleanValue lv lazyA with
                  | .error e => .error e
                  | .ok lazy0 =>
                    let targetLazy : Except XErr (Nat × Bool) :=
                      match scopeA with
                      | some "global" =>
                        .ok (syms3.scopes.length - 1, false)
                      | some "parent" =>
                        match parentScopeIndex syms3.scopes with
                        | some i => .ok (i, false)
                        | none => .error (.hostError
                            "AttributeError: plain dict has no _setitem")
                      | _ => .ok (0, lazy0)
                    match targetLazy with
                    | .error e => .error e
                    | .ok (target, lazy) =>
                      let step : Except XErr (Value × SymTable) :=
                        if ¬ lazy ∧ value1.isStr then
                          match value1 with
                          | .vstr raw => evalTextF f raw syms3
                          | _ => .ok (value1, syms3)
                        else .ok (value1, syms3)
                      match step with
                      | .error e => .error e
                      | .ok (value2, syms4) =>
                        .ok { st with
                          syms := syms4.setItemAt target name1 value2 lazy }
      | _ => .error (.hostError "TypeError: property name is not a string")

/-! ## The tree walker (`eval_all`), macro expansion and includes

All functions are structural on the fuel argument; with enough fuel the
result is what the unboundedly recursive Python computes. -/

mutual

/-- `eval_all` on an element: evaluate the attributes (macro-namespace
attributes are removed, other values replaced by their stringified
text-evaluation), drop the `xmlns:xacro` declaration, then process the
children (which may also mutate the element's attributes through
`xacro:attribute`). -/
def evalAll : Nat → XNode → St → Ctx → Except XErr (XNode × St)
  | 0, _, _, _ => .error .outOfFuel
  | f + 1, .elem tag attrs children, st, ctx =>
    match evalAttrs f attrs st ctx with
    | .error e => .error e
    | .ok (attrs1, st1) =>
      let attrs2 := eraseD attrs1 "xmlns:xacro"
      match evalChildren f children [] attrs2 false st1 ctx with
      | .error e => .error e
      | .ok (children', pattrs', st2) =>
        .ok (.elem tag pattrs' children', st2)
  | _ + 1, _, _, _ => .error (.hostError "eval_all on a non-element node")

/-- The attribute loop of `eval_all` (over the `items()` snapshot, in
document order). -/
def evalAttrs : Nat → List (String × String) → St → Ctx →
    Except XErr (List (String × String) × St)
  | 0, _, _, _ => .error .outOfFuel
  | _ + 1, [], st, _ => .ok ([], st)
  | f + 1, (n, v) :: rest, st, ctx =>
    if strStartsWith n "xacro:" then evalAttrs f rest st ctx
    else
      match evalTextF f v st.syms with
      | .error e => .error e
      | .ok (w, syms') =>
        match evalAttrs f rest { st with syms := syms' } ctx with
        | .error e => .error e
        | .ok (rest', st') => .ok ((n, pyStr w) :: rest', st')

/-- The child loop of `eval_all`: dispatch each child on its node type
and tag, maintaining the emitted siblings `acc`, the parent's attribute
list (mutable through `xacro:attribute`) and the `eval-comments` flag. -/
def evalChildren : Nat → List XNode → List XNode → List (String × String) →
    Bool → St → Ctx →
    Except XErr (List XNode × List (String × String) × St)
  | 0, _, _, _, _, _, _ => .error .outOfFuel
  | _ + 1, [], acc, pattrs, _, st, _ => .ok (acc, pattrs, st)
  | f + 1, c :: rest, acc, pattrs, evc, st, ctx =>
    match c with
    | .elem tag cattrs cchildren =>
      if tag = "xacro:insert_block" then
        match getAttrOpt cattrs "name" with
        | none => .error (.missingAttribute tag "name")
        | some name =>
          let resolved : Except XErr (Value × SymTable × Bool) :=
            if st.syms.containsChain ("**" ++ name) then
              match lookupResolve f st.syms ("**" ++ name) with
              | .ok (v, syms') => .ok (v, syms', true)
              | .error e => .error e
            else if st.syms.containsChain ("*" ++ name) then
              match lookupResolve f st.syms ("*" ++ name) with
              | .ok (v, syms') => .ok (v, syms', false)
              | .error e => .error e
            else .error (.undefinedBlock name)
          match resolved with
          | .error e => .error e
          | .ok (v, syms', contentOnly) =>
            match v with
            | .vnode block =>
              match evalAll f block { st with syms := syms' } ctx with
              | .error e => .error e
              | .ok (block', st') =>
                let repl := if contentOnly then block'.children else [block']
                evalChildren f rest (acc ++ repl) pattrs false st' ctx
            | _ => .error (.hostError "block binding is not a node")
      else if tag = "xacro:include" then
        match processInclude f c st ctx with
        | .error e => .error e
        | .ok (repl, nsAttrs, st') =>
          let (acc1, sb) := stripPrevComments acc
          let pattrs' := importXmlNamespaces pattrs nsAttrs
          let acc2 := placeSentinel acc1 repl (sb && !rest.isEmpty)
          evalChildren f rest acc2 pattrs' false st' ctx
      else if tag = "xacro:property" then
        let (acc1, sb) := stripPrevComments acc
        match grabProperty f c st with
        | .error e => .error e
        | .ok st' =>
          let acc2 := placeSentinel acc1 [] (sb && !rest.isEmpty)
          evalChildren f rest acc2 pattrs false st' ctx
      else if tag = "xacro:macro" then
        let (acc1, sb) := stripPrevComments acc
        match grabMacroDecl c st.macros with
        | .error e => .error e
        | .ok macros' =>
          let acc2 := placeSentinel acc1 [] (sb && !rest.isEmpty)
          evalChildren f rest acc2 pattrs false { st with macros := macros' } ctx
      else if tag = "xacro:arg" then
        match getAttrOpt cattrs "name", getAttrOpt cattrs "default" with
        | none, _ => .error (.missingAttribute tag "name")
        | _, none => .error (.missingAttribute tag "default")
        | some name, some dflt =>
          let step : Except XErr St :=
            if containsD st.args name then .ok st
            else
              match evalTextF f dflt st.syms with
              | .error e => .error e
              | .ok (v, syms') =>
                .ok ⟨syms', st.macros, setD st.args name (pyStr v)⟩
          match step with
          | .error e => .error e
          | .ok st' =>
            let (acc1, sb) := stripPrevComments acc
            let acc2 := placeSentinel acc1 [] (sb && !rest.isEmpty)
            evalChildren f rest acc2 pattrs false st' ctx
      else if tag = "xacro:element" then
        match getAttrOpt cattrs "xacro:name" with
        | none => .error (.missingAttribute tag "xacro:name")
        | some nameRaw =>
          match evalTextF f nameRaw st.syms with
          | .error e => .error e
          | .ok (nv, syms') =>
            if ¬ pyTruth nv then .error (.emptyName tag)
            else
              match nv with
              | .vstr nm =>
                let renamed : XNode :=
                  .elem nm (eraseD cattrs "xacro:name") cchildren
                evalChildren f (renamed :: rest) acc pattrs evc
                  { st with syms := syms' } ctx
              | _ => .error (.hostError "xacro:element name is not a string")
      else if tag = "xacro:attribute" then
        match getAttrOpt cattrs "name", getAttrOpt cattrs "value" with
        | none, _ => .error (.missingAttribute tag "name")
        | _, none => .error (.missingAttribute tag "value")
        | some nameRaw, some valueRaw =>
          match evalTextF f nameRaw st.syms with
          | .error e => .error e
          | .ok (nv, syms1) =>
            match evalTextF f valueRaw syms1 with
            | .error e => .error e
            | .ok (vv, syms2) =>
              if ¬ pyTruth nv then .error (.emptyName tag)
              else
                match nv with
                | .vstr nm =>
                  evalChildren f rest acc (setD pattrs nm (pyStr vv)) false
                    { st with syms := syms2 } ctx
                | _ => .error (.hostError "attribute name is not a string")
      else if tag = "xacro:if" ∨ tag = "xacro:unless" then
        let (acc1, sb) := stripPrevComments acc
        match getAttrOpt cattrs "value" with
        | none => .error (.missingAttribute tag "value")
        | some cond =>
          match evalTextF f cond st.syms with
          | .error e => .error e
          | .ok (cv, syms1) =>
            match getBooleanValue cv (some cond) with
            | .error e => .error e
            | .ok keep0 =>
              let keep := if tag = "xacro:unless" then !keep0 else keep0
              if keep then
                match evalAll f c { st with syms := syms1 } ctx with
                | .error e => .error e
                | .ok (c', st') =>
                  let acc2 := placeSentinel acc1 c'.children (sb && !rest.isEmpty)
                  evalChildren f rest acc2 pattrs false st' ctx
              else
                let acc2 := placeSentinel acc1 [] (sb && !rest.isEmpty)
                evalChildren f rest acc2 pattrs false
                  { st with syms := syms1 } ctx
      else
        match handleMacroCall f c st ctx with
        | .error e => .error e
        | .ok (some (repl, nsAttrs), st') =>
          let (acc1, sb) := stripPrevComments acc
          let pattrs' := importXmlNamespaces pattrs nsAttrs
          let acc2 := placeSentinel acc1 repl (sb && !rest.isEmpty)
          evalChildren f rest acc2 pattrs' false st' ctx
        | .ok (none, st') =>
          match evalAll f c st' ctx with
          | .error e => .error e
          | .ok (c', st'') =>
            evalChildren f rest (acc ++ [c']) pattrs false st'' ctx
    | .text d sent =>
      match evalTextF f d st.syms with
      | .error e => .error e
      | .ok (v, syms') =>
        let d' := pyStr v
        let evc' := if pyStrip d' ≠ "" then false else evc
        evalChildren f rest (acc ++ [.text d' sent]) pattrs evc'
          { st with syms := syms' } ctx
    | .comment d =>
      if containsSubstr d "xacro:eval-comments" then
        evalChildren f rest acc pattrs
          (!containsSubstr d "xacro:eval-comments:off") st ctx
      else if evc then
        match evalTextF f d st.syms with
        | .error e => .error e
        | .ok (v, syms') =>
          evalChildren f rest (acc ++ [.comment (pyStr v)]) pattrs evc
            { st with syms := syms' } ctx
      else evalChildren f rest (acc ++ [.comment d]) pattrs evc st ctx

/-- `handle_macro_call`: dynamic `xacro:call` dispatch, macro resolution,
eager caller-scope binding of call attributes, evaluation of the call
node's content in the caller's scope, block and default parameter
binding, and evaluation of the cloned body in a fresh scope whose parent
is the caller's scope.  Returns `none` when the tag is not in the macro
namespace. -/
def handleMacroCall : Nat → XNode → St → Ctx →
    Except XErr (Option (List XNode × List (String × String)) × St)
  | 0, _, _, _ => .error .outOfFuel
  | f + 1, .elem tag cattrs cchildren, st, ctx =>
    if tag = "xacro:call" then
      match getAttrOpt cattrs "macro" with
      | none => .error (.missingAttribute tag "macro")
      | some nameRaw =>
        if nameRaw = "" then .error .callMissingMacroAttr
        else
          match evalTextF f nameRaw st.syms with
          | .error e => .error e
          | .ok (nv, syms') =>
            let name := pyStr nv
            let node' : XNode :=
              .elem ("xacro:" ++ name) (eraseD cattrs "macro") cchildren
            handleMacroCall f node' { st with syms := syms' } ctx
    else if ¬ strStartsWith tag "xacro:" then .ok (none, st)
    else
      let name := String.mk (tag.toList.drop 6)
      match resolveMacroName st.macros name with
      | none => .error (.unknownMacroName tag)
      | some m =>
        match bindCallParams f cattrs m.params (Scope.fresh false) st.syms
            cattrs with
        | .error e => .error e
        | .ok (params1, scoped1, syms1, cattrs1) =>
          match evalAll f (.elem tag cattrs1 cchildren)
              { st with syms := syms1 } ctx with
          | .error e => .error e
          | .ok (node', st1) =>
            match consumeBlocks params1 (elemChildren node'.children) scoped1 with
            | .error e => .error e
            | .ok (params2, leftover, scoped2) =>
              match leftover with
              | b :: _ => .error (.unusedBlock b.tag)
              | [] =>
                match bindDefaults f m params2 scoped2 st1.syms with
                | .error e => .error e
                | .ok (params3, scoped3, syms2) =>
                  if params3 ≠ [] then .error (.undefinedParams params3)
                  else
                    match evalAll f m.body
                        { syms := ⟨scoped3 :: syms2.scopes, syms2.root,
                            syms2.launch⟩,
                          macros := [] :: st1.macros,
                          args := st1.args } ctx with
                    | .error e => .error e
                    | .ok (body', st2) =>
                      match st2.syms.scopes, st2.macros with
                      | _ :: symRest, _ :: macRest =>
                        .ok (some (body'.children, body'.attrs),
                          { syms := ⟨symRest, st2.syms.root, st2.syms.launch⟩,
                            macros := macRest, args := st2.args })
                      | _, _ => .error (.hostError "scope chain corrupted")
  | _ + 1, _, _, _ => .error (.hostError "macro call on a non-element node")

/-- `process_include`: evaluate the filename, read the file from the
modelled file system, recursively evaluate the included document element
with the current tables, and hand back its children for splicing plus its
namespace declarations for the parent.  Namespaced includes (`ns=…`)
create aliased `NameSpace` tables and globbing enumerates the host file
system; both are outside this model. -/
def processInclude : Nat → XNode → St → Ctx →
    Except XErr (List XNode × List (String × String) × St)
  | 0, _, _, _ => .error .outOfFuel
  | f + 1, .elem _ cattrs _, st, ctx =>
    match getAttrOpt cattrs "filename" with
    | none => .error (.missingAttribute "xacro:include" "filename")
    | some fnRaw =>
      if (getAttrOpt cattrs "ns").isSome then .error .nsUnsupported
      else
        let optionalE : Except XErr Bool :=
          match getAttrOpt cattrs "optional" with
          | none => .ok false
          | some s => getBooleanValue (.vstr s) (some s)
        match optionalE with
        | .error e => .error e
        | .ok optional =>
          match evalTextF f fnRaw st.syms with
          | .error e => .error e
          | .ok (fv, syms1) =>
            let filename := pyStr fv
            if filename.toList.any (fun ch => ch = '*' ∨ ch = '[' ∨ ch = '?')
            then .error (.hostError "glob include outside the model")
            else
              match lookupD ctx.fs filename with
              | none =>
                if optional then .ok ([], [], { st with syms := syms1 })
                else .error (.includeFailure filename)
              | some doc =>
                match evalAll f doc { st with syms := syms1 } ctx with
                | .error e => .error e
                | .ok (doc', st') =>
                  .ok (doc'.children, doc'.attrs, st')
  | _ + 1, _, _, _ => .error (.hostError "include on a non-element node")

end

/-- `process_doc`: move `xacro:targetNamespace` to `xmlns`, build fresh
macro and symbol tables over the global symbols, install the mappings as
the substitution-argument context, and walk the document element. -/
def processDoc (f : Nat) (root : XNode) (mappings : List (String × String))
    (ctx : Ctx) : Except XErr (XNode × St) :=
  match root with
  | .elem tag attrs children =>
    let targetNS := (lookupD attrs "xacro:targetNamespace").getD ""
    let root' : XNode :=
      if targetNS ≠ "" then
        .elem tag (setD (eraseD attrs "xacro:targetNamespace") "xmlns" targetNS)
          children
      else .elem tag attrs children
    evalAll f root' ⟨⟨[Scope.fresh false], globalSymbols, false⟩, [[]], mappings⟩
      ctx
  | _ => .error (.hostError "process_doc expects a document element")

/-! ## Inputs and measures for the whole-document claims -/

/-- The fresh processing state `process_doc` builds over the global
symbols, with `mappings` as the substitution-argument context. -/
def initSt (mappings : List (String × String)) : St :=
  ⟨⟨[Scope.fresh false], globalSymbols, false⟩, [[]], mappings⟩

/-- An empty modelled file system (no `xacro:include` targets). -/
def emptyCtx : Ctx := ⟨[]⟩

/-- Attribute lists that the attribute pass of `eval_all` maps to
themselves: names outside the macro namespace and distinct from the
`xmlns:xacro` declaration, values free of `$`. -/
def inertAttrs (attrs : List (String × String)) : Bool :=
  attrs.all (fun nv =>
    !strStartsWith nv.1 "xacro:" && nv.1 != "xmlns:xacro" &&
    nv.2.toList.all (fun c => decide (c ≠ '$')))

mutual

/-- Nodes on which the tree walker acts as the identity: elements outside
the macro namespace with inert attributes and children, `$`-free text and
comments without the `xacro:eval-comments` pragma. -/
def inertN : XNode → Bool
  | .elem t a c => !strStartsWith t "xacro:" && inertAttrs a && inertL c
  | .text d _ => d.toList.all (fun c => decide (c ≠ '$'))
  | .comment d => !containsSubstr d "xacro:eval-comments"

def inertL : List XNode → Bool
  | [] => true
  | c :: rest => inertN c && inertL rest

end

/-- Fuel sufficient for the attribute pass on an inert attribute list. -/
def fuelA : List (String × String) → Nat
  | [] => 1
  | _ :: rest => 3 + fuelA rest

mutual

/-- Fuel sufficient for the tree walker on an inert node. -/
def fuelN : XNode → Nat
  | .elem _ a c => 1 + fuelA a + fuelL c
  | .text _ _ => 3
  | .comment _ => 1

/-- Fuel sufficient for the child pass on an inert child list. -/
def fuelL : List XNode → Nat
  | [] => 1
  | c :: rest => 2 + fuelN c + fuelL rest

end

/-- Macro names `m`, `mi`, `mii`, … for the nesting tower: distinctness
is decided by length, keeping every lemma independent of decimal
rendering. -/
def mName (i : Nat) : String := String.mk ('m' :: List.replicate i 'i')

/-- The macro-namespace tag invoking tower level `i`. -/
def callTag (i : Nat) : String := "xacro:" ++ mName i

/-- Tower level `i`: level 0 expands to a leaf, level `i+1` invokes level
`i`, so expanding the top of a depth-`d` tower nests `d+1` recursive
`handle_macro_call`/`eval_all` activations. -/
def towerDecl : Nat → XNode
  | 0 => .elem "xacro:macro" [("name", mName 0), ("params", "")]
      [.elem "leaf" [] []]
  | i + 1 => .elem "xacro:macro" [("name", mName (i+1)), ("params", "")]
      [.elem (callTag i) [] []]

/-- The tower declarations, topmost first (document order). -/
def towerDecls : Nat → List XNode
  | 0 => [towerDecl 0]
  | i + 1 => towerDecl (i+1) :: towerDecls i

/-- A document declaring the depth-`d` tower and invoking its top. -/
def towerDoc (d : Nat) : XNode :=
  .elem "robot" [] (towerDecls d ++ [.elem (callTag d) [] []])

/-- The macro definition `grab_macro` stores for tower level `i`. -/
def towerMac (i : Nat) : MacroDef := ⟨towerDecl i, [], []⟩

/-- The local macro scope after processing the declarations of
`towerDecls i` in document order, starting from `sc`. -/
def towerScope : Nat → List (String × MacroDef) → List (String × MacroDef)
  | 0, sc => setD sc (mName 0) (towerMac 0)
  | i + 1, sc => towerScope i (setD sc (mName (i+1)) (towerMac (i+1)))

/-- C1's input: macro `m` with params `a b:=2 c:=^|3`, invoked as
`<xacro:m a="1" c="${a+10}"/>` in a caller scope binding only `b=9`. -/
def macroCallDoc : XNode := .elem "robot" [] [
  .elem "xacro:macro" [("name", "m"), ("params", "a b:=2 c:=^|3")] [
    .elem "q" [("x", "${a}"), ("y", "${b}"), ("z", "${c}")] []],
  .elem "xacro:property" [("name", "b"), ("value", "9")] [],
  .elem "xacro:m" [("a", "1"), ("c", "${a+10}")] []]

/-- C1's input with the caller scope additionally binding `a=1`, so that
the call attribute `c="${a+10}"` can be evaluated in the caller scope. -/
def macroCallDocA : XNode := .elem "robot" [] [
  .elem "xacro:macro" [("name", "m"), ("params", "a b:=2 c:=^|3")] [
    .elem "q" [("x", "${a}"), ("y", "${b}"), ("z", "${c}")] []],
  .elem "xacro:property" [("name", "a"), ("value", "1")] [],
  .elem "xacro:property" [("name", "b"), ("value", "9")] [],
  .elem "xacro:m" [("a", "1"), ("c", "${a+10}")] []]

/-- C2's input: the four literal conditionals plus a float-valued `if`
and `unless` (`${0.5}` evaluates to the typed float `1/2`). -/
def conditionalDoc : XNode := .elem "robot" [] [
  .elem "xacro:if" [("value", "1")] [.elem "a" [] []],
  .elem "xacro:if" [("value", "0")] [.elem "b" [] []],
  .elem "xacro:unless" [("value", "1")] [.elem "c" [] []],
  .elem "xacro:unless" [("value", "0")] [.elem "d" [] []],
  .elem "xacro:if" [("value", "${0.5}")] [.elem "e" [] []],
  .elem "xacro:unless" [("value", "${0.5}")] [.elem "g" [] []]]

/-- C4 input (i): a macro-namespace element as the document root —
`eval_all` dispatches children only, never the root itself. -/
def rootDirectiveDoc : XNode :=
  .elem "xacro:property" [("name", "a"), ("value", "1")] []

/-- C4 input (ii): `xacro:attribute` installing a macro-namespace
attribute on its parent. -/
def attrInstallDoc : XNode := .elem "robot" [] [
  .elem "xacro:attribute" [("name", "xacro:foo"), ("value", "1")] []]

/-- C4 input (iii): the `$$` escape, unescaped anew on every run. -/
def dollarEscapeDoc : XNode := .elem "a" [("t", "$${x}")] []

/-- The declaration element of C1's macro `m`. -/
def macroMDecl : XNode :=
  .elem "xacro:macro" [("name", "m"), ("params", "a b:=2 c:=^|3")] [
    .elem "q" [("x", "${a}"), ("y", "${b}"), ("z", "${c}")] []]

/-- The macro definition `grab_macro` stores for C1's declaration
(`parse_macro_arg` on `a b:=2 c:=^|3`): parameters `a`, `b`, `c`, with
`b ↦ (no forward, default "2")` and `c ↦ (forward c, default "3")`. -/
def macroM : MacroDef :=
  ⟨macroMDecl, ["a", "b", "c"],
   [("b", (none, some "2")), ("c", (some "c", some "3"))]⟩

/-- A caller state for C1: one local scope with the given eagerly bound
entries over the global symbols, and macro `m` declared. -/
def callerSt (es : List (String × Value)) : St :=
  ⟨⟨[⟨es, [], [], false⟩], globalSymbols, false⟩, [[("m", macroM)]], []⟩

/-- C1's call element. -/
def callM : XNode := .elem "xacro:m" [("a", "1"), ("c", "${a+10}")] []

/-- C9: deleting `k` removes the binding of `k` from every scope on the
parent chain up to but not including the root scope; the root scope (and
its binding of `k`, if any) is never modified, the "cannot remove global
symbol" diagnostic is emitted exactly when the root binds `k` (in
particular when a delete reaches only the root), and the bindings of every
other identifier in every scope are unchanged. -/
theorem delitem_removes_up_to_root (t : SymTable) (k : String) :
    (t.delItem k).1.scopes.length = t.scopes.length ∧
    (t.delItem k).1.root = t.root ∧
    ((t.delItem k).2 = true ↔ containsD t.root k = true) ∧
    (∀ i (h : i < t.scopes.length),
      ((((t.scopes[i]).entries.map Prod.fst).Nodup →
         lookupD ((t.delItem k).1.scopes.get
           ⟨i, by simpa [SymTable.delItem] using h⟩).entries k = none) ∧
       (∀ k', k' ≠ k →
         lookupD ((t.delItem k).1.scopes.get
           ⟨i, by simpa [SymTable.delItem] using h⟩).entries k' =
         lookupD (t.scopes[i]).entries k'))) := by
  refine ⟨by simp [SymTable.delItem], rfl, Iff.rfl, ?_⟩
  intro i h
  constructor
  · intro hnd
    simpa [SymTable.delItem] using lookupD_eraseD_self (t.scopes[i]).entries k hnd
  · intro k' hk
    simpa [SymTable.delItem] using lookupD_eraseD_other (t.scopes[i]).entries k k' hk

theorem lookupD_setD_self {α : Type} (es : List (String × α)) (k : String) (v : α) :
    lookupD (setD es k v) k = some v := by
  induction es with
  | nil => simp [setD, lookupD]
  | cons p rest ih =>
    obtain ⟨pk, pv⟩ := p
    by_cases hp : pk = k
    · subst hp; simp [setD, lookupD]
    · simp [setD, lookupD, if_neg hp, ih]

theorem updateAt_length {α : Type} (l : List α) (i : Nat) (f : α → α) :
    (updateAt l i f).length = l.length := by
  induction l generalizing i with
  | nil => rfl
  | cons x xs ih =>
    cases i with
    | zero => rfl
    | succ n => simp [updateAt, ih]

theorem updateAt_getElem_self {α : Type} (l : List α) (i : Nat) (f : α → α)
    (h : i < l.length) :
    (updateAt l i f).get ⟨i, by simpa [updateAt_length] using h⟩ = f l[i] := by
  induction l generalizing i with
  | nil => simp at h
  | cons x xs ih =>
    cases i with
    | zero => rfl
    | succ n => simpa [updateAt] using ih n (by simpa using h)

/-- A string of length at least 2 beginning and ending with a single
quote: the escaped-string form handled first by `Table._eval_literal`. -/
def Quoted (s : String) : Prop :=
  2 ≤ s.toList.length ∧ s.toList.head? = some '\'' ∧ s.toList.getLast? = some '\''

instance (s : String) : Decidable (Quoted s) := by unfold Quoted; infer_instance

/-- The inner text of a quoted string. -/
def unquote (s : String) : String := String.mk (s.toList.drop 1).dropLast

/-- Witness for C9 at a concrete chain: two scopes binding `a` (the inner
one also `b`) over a root binding `a`; deleting `a` empties both scopes'
`a` bindings, keeps `b` and the root intact, and emits the diagnostic. -/
theorem delitem_removes_up_to_root_witness :
    lookupD ((SymTable.delItem
        ⟨[⟨[("a", .vint 1), ("b", .vint 2)], [], [], false⟩,
          ⟨[("a", .vint 3)], [], [], false⟩], [("a", .vint 0)], false⟩
        "a").1.scopes.get ⟨0, by decide⟩).entries "a" = none ∧
    lookupD ((SymTable.delItem
        ⟨[⟨[("a", .vint 1), ("b", .vint 2)], [], [], false⟩,
          ⟨[("a", .vint 3)], [], [], false⟩], [("a", .vint 0)], false⟩
        "a").1.scopes.get ⟨0, by decide⟩).entries "b" = some (.vint 2) := by
  refine ⟨?_, ?_⟩
  · exact ((delitem_removes_up_to_root
      ⟨[⟨[("a", .vint 1), ("b", .vint 2)], [], [], false⟩,
        ⟨[("a", .vint 3)], [], [], false⟩], [("a", .vint 0)], false⟩
      "a").2.2.2 0 (by decide)).1 (by decide)
  · exact (((delitem_removes_up_to_root
      ⟨[⟨[("a", .vint 1), ("b", .vint 2)], [], [], false⟩,
        ⟨[("a", .vint 3)], [], [], false⟩], [("a", .vint 0)], false⟩
      "a").2.2.2 0 (by decide)).2 "b" (by decide)).trans (by decide)

/-- After `Table._setitem(key, value, unevaluated)`, the target scope binds
`key` to the literal-coerced value. -/
theorem setItemAt_lookup (t : SymTable) (i : Nat) (k : String) (v : Value)
    (uv : Bool) (hi : i < t.scopes.length) :
    lookupD (((t.setItemAt i k v uv).scopes.get
      ⟨i, by simpa [SymTable.setItemAt, updateAt_length] using hi⟩).entries) k
      = some (evalLiteralV v) := by
  simp only [SymTable.setItemAt]
  rw [updateAt_getElem_self _ _ _ hi]
  by_cases hc : uv ∧ (evalLiteralV v).isStr = true
  · simp only [if_pos hc, lookupD_setD_self]
  · simp only [if_neg hc, lookupD_setD_self]

/-- C10: every value inserted into the symbol table that is a string of
length at least 2 beginning and ending with a single-quote character is
stored as the inner text with the two surrounding quotes removed, with no
numeric or boolean coercion applied to it. -/
theorem quoted_value_stored_unquoted (t : SymTable) (i : Nat) (k s : String)
    (uv : Bool) (hi : i < t.scopes.length) (hq : Quoted s) :
    evalLiteral s = .vstr (unquote s) ∧
    lookupD (((t.setItemAt i k (.vstr s) uv).scopes.get
      ⟨i, by simpa [SymTable.setItemAt, updateAt_length] using hi⟩).entries) k
      = some (.vstr (unquote s)) := by
  have h1 : evalLiteral s = .vstr (unquote s) := by
    simp only [evalLiteral, unquote]
    rw [if_pos (show 2 ≤ s.toList.length ∧ s.toList.head? = some '\'' ∧
      s.toList.getLast? = some '\'' from hq)]
  refine ⟨h1, ?_⟩
  have h2 := setItemAt_lookup t i k (.vstr s) uv hi
  simpa [evalLiteralV, h1] using h2

/-- Witness for C10: a property whose raw value is `"'12'"` binds the text
string `"12"` (not the integer 12). -/
theorem quoted_value_stored_unquoted_witness :
    evalLiteral "'12'" = .vstr "12" ∧
    lookupD (((SymTable.setItemAt ⟨[⟨[], [], [], false⟩], [], false⟩
      0 "p" (.vstr "'12'") true).scopes.get ⟨0, by decide⟩).entries) "p"
      = some (.vstr "12") := by
  have h := quoted_value_stored_unquoted ⟨[⟨[], [], [], false⟩], [], false⟩
    0 "p" "'12'" true (by decide) (by decide)
  simpa using h

/-- Counterexample for C8: the claim demands that any text containing an
underscore be kept verbatim, but a quoted value such as `"'1_0'"` is first
stripped of its quotes: the stored value is `"1_0"`, not the verbatim
`"'1_0'"`. -/
theorem underscore_rule_preempted_by_quotes :
    evalLiteral "'1_0'" = .vstr "1_0" ∧
    Value.vstr "1_0" ≠ Value.vstr "'1_0'" ∧
    lookupD (((SymTable.setItemAt ⟨[⟨[], [], [], false⟩], [], false⟩
      0 "p" (.vstr "'1_0'") true).scopes.get ⟨0, by decide⟩).entries) "p"
      = some (.vstr "1_0") := by
  refine ⟨by decide, by decide, by decide⟩

/-- C8 as amended: quote-stripping (C10) happens first; any other text
containing an underscore is kept verbatim (in particular `"1_000"` binds
the text `"1_000"`, not 1000); all other text goes through the
`int → float → boolean → keep-as-text` ladder in that order, as the
concrete instances illustrate (`"7"` is an int before it is a float,
`"true"`/`"False"` are booleans, `"hello"` stays text). -/
theorem underscore_text_kept_verbatim :
    (∀ s : String, ¬ Quoted s → s.toList.contains '_' → evalLiteral s = .vstr s) ∧
    evalLiteral "1_000" = .vstr "1_000" ∧
    evalLiteral "7" = .vint 7 ∧
    evalLiteral "0.5" = .vfloat (mkRat 1 2) ∧
    evalLiteral "true" = .vbool true ∧
    evalLiteral "False" = .vbool false ∧
    evalLiteral "hello" = .vstr "hello" ∧
    (∀ (t : SymTable) (i : Nat) (k s : String) (uv : Bool)
      (hi : i < t.scopes.length), ¬ Quoted s → s.toList.contains '_' →
      lookupD (((t.setItemAt i k (.vstr s) uv).scopes.get
        ⟨i, by simpa [SymTable.setItemAt, updateAt_length] using hi⟩).entries) k
        = some (.vstr s)) := by
  have hverb : ∀ s : String, ¬ Quoted s → s.toList.contains '_' →
      evalLiteral s = .vstr s := by
    intro s hnq hu
    simp only [evalLiteral]
    rw [if_neg (show ¬(2 ≤ s.toList.length ∧ s.toList.head? = some '\'' ∧
      s.toList.getLast? = some '\'') from hnq), if_pos hu]
  refine ⟨hverb, by decide, by decide, by decide, by decide, by decide, by decide, ?_⟩
  intro t i k s uv hi hnq hu
  have h2 := setItemAt_lookup t i k (.vstr s) uv hi
  simpa [evalLiteralV, hverb s hnq hu] using h2

theorem takeWhile_replicate_stop (n : Nat) (l : List Char)
    (hl : l.takeWhile (· = '$') = []) :
    (List.replicate n '$' ++ l).takeWhile (· = '$') = List.replicate n '$' := by
  induction n with
  | zero => simpa using hl
  | succ m ih => simpa [List.replicate_succ, List.takeWhile] using ih

theorem dropWhile_replicate_stop (n : Nat) (l : List Char)
    (hl : l.dropWhile (· = '$') = l) :
    (List.replicate n '$' ++ l).dropWhile (· = '$') = l := by
  induction n with
  | zero => simpa using hl
  | succ m ih => simpa [List.replicate_succ, List.dropWhile] using ih

/-- Lexing `"$"*(N+1) ++ "{x}"`: one `DOLLAR_DOLLAR_BRACE` token carrying
all the dollars and the brace, then one `TEXT` token `"x}"`. -/
theorem tokensOf_dollar_escape (N : Nat) (hN : 1 ≤ N) :
    tokensOfAux (N + 5) (List.replicate (N + 1) '$' ++ ['{', 'x', '}'])
      = .ok [(.ddbrace, List.replicate (N + 1) '$' ++ ['{']), (.text, ['x', '}'])] := by
  have htw : (List.replicate (N + 1) '$' ++ ['{', 'x', '}']).takeWhile (· = '$')
      = List.replicate (N + 1) '$' := takeWhile_replicate_stop _ _ (by decide)
  have hdw : (List.replicate (N + 1) '$' ++ ['{', 'x', '}']).dropWhile (· = '$')
      = ['{', 'x', '}'] := dropWhile_replicate_stop _ _ (by decide)
  have hcons : List.replicate (N + 1) '$' ++ ['{', 'x', '}']
      = '$' :: (List.replicate N '$' ++ ['{', 'x', '}']) := by
    simp [List.replicate_succ]
  have hstep : lexStep (List.replicate (N + 1) '$' ++ ['{', 'x', '}'])
      = some ((.ddbrace, List.replicate (N + 1) '$' ++ ['{']), ['x', '}']) := by
    simp only [lexStep, matchDollarBrace, htw, hdw, List.length_replicate]
    rw [if_pos (by omega)]
  rw [show N + 5 = (N + 4) + 1 from rfl]
  rw [hcons]
  show (match lexStep ('$' :: (List.replicate N '$' ++ ['{', 'x', '}'])) with
    | some (tok, rest) =>
      match tokensOfAux (N + 4) rest with
      | .ok ts => Except.ok (tok :: ts)
      | .error e => Except.error e
    | none => Except.error (.lexError (String.mk ('$' :: (List.replicate N '$'
        ++ ['{', 'x', '}']))))) = _
  rw [← hcons, hstep]
  have h2 : tokensOfAux (N + 4) ['x', '}'] = .ok [(.text, ['x', '}'])] := by
    rw [show N + 4 = (N + 3) + 1 from rfl]
    show (match lexStep ['x', '}'] with
      | some (tok, rest) =>
        match tokensOfAux (N + 3) rest with
        | .ok ts => Except.ok (tok :: ts)
        | .error e => Except.error e
      | none => Except.error (.lexError (String.mk ['x', '}']))) = _
    have : lexStep ['x', '}'] = some ((.text, ['x', '}']), []) := rfl
    rw [this]
    rfl
  simp only [h2]

theorem evalTokens_nil (f : Nat) (t : SymTable) :
    evalTokens f ([] : List (TokKind × List Char)) t = .ok ([], t) := by
  cases f <;> rfl

/-- C7: for every `N ≥ 1` and every symbol table, text-evaluating the
string of `N+1` dollar signs followed by `{x}` returns the string of `N`
dollar signs followed by `{x}`; the result is the same for every table and
the table is returned unchanged, so the symbol `x` is never read or
resolved. -/
theorem dollar_escape_strips_one_dollar (N : Nat) (hN : 1 ≤ N) (t : SymTable)
    (f : Nat) (hf : 3 ≤ f) :
    evalTextF f (String.mk (List.replicate (N + 1) '$' ++ ['{', 'x', '}'])) t
      = .ok (.vstr (String.mk (List.replicate N '$' ++ ['{', 'x', '}'])), t) := by
  obtain ⟨g, rfl⟩ : ∃ g, f = g + 3 := ⟨f - 3, by omega⟩
  have hw : List.replicate (N + 1) '$' ++ ['{']
      = '$' :: (List.replicate N '$' ++ ['{']) := by simp [List.replicate_succ]
  have htok : tokensOf (String.mk (List.replicate (N + 1) '$' ++ ['{', 'x', '}']))
      = .ok [(.ddbrace, List.replicate (N + 1) '$' ++ ['{']), (.text, ['x', '}'])] := by
    unfold tokensOf
    have hdata : (String.mk (List.replicate (N + 1) '$' ++ ['{', 'x', '}'])).toList
        = List.replicate (N + 1) '$' ++ ['{', 'x', '}'] := rfl
    rw [hdata]
    rw [show (List.replicate (N + 1) '$' ++ ['{', 'x', '}']).length + 1 = N + 5 by
      simp]
    exact tokensOf_dollar_escape N hN
  have h3 : evalTokens (g + 1) [((.text : TokKind), ['x', '}'])] t
      = .ok ([.vstr (String.mk ['x', '}'])], t) := by
    show (match evalTokens g ([] : List (TokKind × List Char)) t with
      | .ok (vs, t') => Except.ok (Value.vstr (String.mk ['x', '}']) :: vs, t')
      | .error e => Except.error e) = _
    rw [evalTokens_nil]
  have h4 : evalTokens (g + 2)
      [((.ddbrace : TokKind), List.replicate (N + 1) '$' ++ ['{']), (.text, ['x', '}'])] t
      = .ok ([.vstr (String.mk ((List.replicate (N + 1) '$' ++ ['{']).drop 1)),
              .vstr (String.mk ['x', '}'])], t) := by
    show (match evalTokens (g + 1) [((.text : TokKind), ['x', '}'])] t with
      | .ok (vs, t') => Except.ok (Value.vstr (String.mk
          ((List.replicate (N + 1) '$' ++ ['{']).drop 1)) :: vs, t')
      | .error e => Except.error e) = _
    rw [h3]
  rw [show g + 3 = (g + 2) + 1 from rfl]
  show (match tokensOf (String.mk (List.replicate (N + 1) '$' ++ ['{', 'x', '}'])) with
    | .error e => Except.error e
    | .ok toks =>
      match evalTokens (g + 2) toks t with
      | .ok (vs, t') => Except.ok (composeResults vs, t')
      | .error e => Except.error e) = _
  rw [htok]
  simp only [h4]
  have hdrop : (List.replicate (N + 1) '$' ++ ['{']).drop 1
      = List.replicate N '$' ++ ['{'] := by rw [hw]; rfl
  rw [hdrop]
  show Except.ok (Value.vstr (String.join [String.mk (List.replicate N '$' ++ ['{']),
      String.mk ['x', '}']]), t) = _
  have : String.join [String.mk (List.replicate N '$' ++ ['{']), String.mk ['x', '}']]
      = String.mk (List.replicate N '$' ++ ['{', 'x', '}']) := by
    show String.mk (([] ++ (List.replicate N '$' ++ ['{'])) ++ ['x', '}']) = _
    simp
  rw [this]

/-- Witness for C7 at `N = 1`: `"$${x}"` evaluates to the literal `"${x}"`
on a concrete table binding `x`, leaving the table unchanged. -/
theorem dollar_escape_strips_one_dollar_witness :
    evalTextF 9 (String.mk (List.replicate 2 '$' ++ ['{', 'x', '}']))
      ⟨[⟨[("x", .vint 5)], [], [], false⟩], [], false⟩
      = .ok (.vstr (String.mk (List.replicate 1 '$' ++ ['{', 'x', '}'])),
             ⟨[⟨[("x", .vint 5)], [], [], false⟩], [], false⟩) :=
  dollar_escape_strips_one_dollar 1 (by decide)
    ⟨[⟨[("x", .vint 5)], [], [], false⟩], [], false⟩ 9 (by decide)

theorem containsD_false_iff {α : Type} (es : List (String × α)) (k : String) :
    containsD es k = false ↔ lookupD es k = none := by
  unfold containsD
  cases lookupD es k <;> simp

theorem lookupResolve_not_found (f : Nat) (t : SymTable) (n : String)
    (hf : t.scopes.length < f) (h : t.containsChain n = false) :
    lookupResolve f t n = .error (.keyError n) := by
  obtain ⟨scopes, root, launch⟩ := t
  induction scopes generalizing f with
  | nil =>
    obtain ⟨g, rfl⟩ : ∃ g, f = g + 1 := ⟨f - 1, by omega⟩
    simp only [SymTable.containsChain, List.any_nil, Bool.false_or] at h
    show (match lookupD root n with
      | some v => Except.ok (v, (⟨[], root, launch⟩ : SymTable))
      | none =>
        match lookupD emptyBuiltins n with
        | some v => Except.ok (v, (⟨[], root, launch⟩ : SymTable))
        | none => Except.error (XErr.keyError n)) = _
    rw [(containsD_false_iff root n).mp h]
    rfl
  | cons s rest ih =>
    obtain ⟨g, rfl⟩ : ∃ g, f = g + 1 := ⟨f - 1, by omega⟩
    simp only [SymTable.containsChain, List.any_cons, Bool.or_eq_false_iff] at h
    show (if containsD s.entries n = true then _ else _) = _
    rw [if_neg (by simp [h.1.1])]
    have hrec := ih g (by simp at hf ⊢; omega)
      (by simp [SymTable.containsChain, h.1.2, h.2])
    rw [hrec]

/-- C6: `safe_eval` refuses any expression referencing a name that begins
with two underscores before evaluating it (the refusal is independent of
the symbol table, so no expression state is touched), and the expression
environment's builtins table is empty, so an identifier bound nowhere in
the scope chain raises `NameError` instead of reaching any host builtin. -/
theorem safe_eval_rejects_dunder_and_has_empty_builtins :
    (∀ (s : String) (e : PyExpr) (f : Nat) (t t' : SymTable),
      parseExpr (pyStrip s) = some e →
      (collectNames e).any (fun n => strStartsWith n "__") = true →
      safeEvalV (f + 1) (.vstr s) t
        = .error (.invalidNames
            ((collectNames e).filter (fun n => strStartsWith n "__"))) ∧
      safeEvalV (f + 1) (.vstr s) t = safeEvalV (f + 1) (.vstr s) t') ∧
    emptyBuiltins = [] ∧
    (∀ (f : Nat) (t : SymTable) (n : String),
      t.scopes.length < f → t.containsChain n = false →
      evalExpr (f + 1) (.name n) t = .error (.nameError n)) := by
  refine ⟨?_, rfl, ?_⟩
  · intro s e f t t' hp ha
    have hbad : ((collectNames e).filter (fun n => strStartsWith n "__")).isEmpty
        = false := by
      rw [List.any_eq_true] at ha
      obtain ⟨x, hx, hpx⟩ := ha
      have : x ∈ (collectNames e).filter (fun n => strStartsWith n "__") :=
        List.mem_filter.mpr ⟨hx, hpx⟩
      cases hfe : (collectNames e).filter (fun n => strStartsWith n "__") with
      | nil => rw [hfe] at this; simp at this
      | cons a l => rfl
    have hone : ∀ u : SymTable, safeEvalV (f + 1) (.vstr s) u
        = .error (.invalidNames
            ((collectNames e).filter (fun n => strStartsWith n "__"))) := by
      intro u
      show (match parseExpr (pyStrip s) with
        | none => Except.error (XErr.syntaxError s)
        | some e =>
          let bad := (collectNames e).filter (fun n => strStartsWith n "__")
          if bad.isEmpty then evalExpr f e u
          else Except.error (XErr.invalidNames bad)) = _
      rw [hp]
      simp only [hbad, Bool.false_eq_true, if_false]
    exact ⟨hone t, (hone t).trans (hone t').symm⟩
  · intro f t n hf h
    show (match lookupResolve f t n with
      | .error (.keyError _) => Except.error (XErr.nameError n)
      | r => r) = _
    rw [lookupResolve_not_found f t n hf h]

/-- Witness for C6: `__import__` is refused with the invalid-name error on
two different concrete tables, and the unexposed builtin `open` is a
`NameError` against the actual global symbol table. -/
theorem safe_eval_rejects_dunder_witness :
    safeEvalV 5 (.vstr "__import__") ⟨[], globalSymbols, false⟩
      = .error (.invalidNames ["__import__"]) ∧
    evalExpr 5 (.name "open") ⟨[], globalSymbols, false⟩
      = .error (.nameError "open") := by
  constructor
  · exact (safe_eval_rejects_dunder_and_has_empty_builtins.1 "__import__"
      (.name "__import__") 4 ⟨[], globalSymbols, false⟩
      ⟨[⟨[("y", .vint 1)], [], [], false⟩], globalSymbols, false⟩
      (by decide) (by decide)).1
  · exact safe_eval_rejects_dunder_and_has_empty_builtins.2.2 4
      ⟨[], globalSymbols, false⟩ "open" (by decide) (by decide)

/-! ## Cycle detection (C3)

A family of lazily evaluated property definitions whose references form a
cycle: every key `k` of `ks` is bound, unevaluated, to the raw text
`"${nxt k}"` in a single scope. -/

/-- The reference text `"${r}"`. -/
def refStr (r : String) : String := String.mk ('$' :: '{' :: r.toList ++ ['}'])

/-- The single `EXPR` token `"${r}"` produces. -/
def refTok (r : String) : List Char := '$' :: '{' :: r.toList ++ ['}']

/-- The scope holding the lazily evaluated cyclic definitions, with the
given `recursive` list. -/
def cycScope (ks : List String) (nxt : String → String) (recur : List String) :
    Scope :=
  ⟨ks.map (fun k => (k, Value.vstr (refStr (nxt k)))), ks, recur, false⟩

/-- `KeyError` discriminator (the only error `eval_default_arg` catches
and the only one `LOAD_NAME` converts). -/
def XErr.isKeyErr : XErr → Bool
  | .keyError _ => true
  | _ => false

theorem lookupD_map_self {β : Type} (ks : List String) (g : String → β)
    (p : String) (hp : p ∈ ks) :
    lookupD (ks.map (fun k => (k, g k))) p = some (g p) := by
  induction ks with
  | nil => simp at hp
  | cons a l ih =>
    by_cases ha : a = p
    · subst ha; simp [lookupD]
    · rcases List.mem_cons.mp hp with h | h
      · exact absurd h.symm ha
      · simp [lookupD, if_neg ha, ih h]

theorem chain'_adjacent {α : Type} {R : α → α → Prop} :
    ∀ {l pre post : List α} {p q : α}, List.Chain' R l →
    l = pre ++ p :: q :: post → R p q := by
  intro l pre
  induction pre generalizing l with
  | nil =>
    intro post p q hc hl
    subst hl
    exact List.chain'_cons.mp hc |>.1
  | cons a rest ih =>
    intro post p q hc hl
    subst hl
    have := List.Chain'.tail hc
    simpa using ih this rfl

theorem contains_eq_true_of_mem {l : List String} {a : String} (h : a ∈ l) :
    l.contains a = true :=
  List.elem_eq_true_of_mem h

theorem contains_eq_false_of_not_mem {l : List String} {a : String} (h : a ∉ l) :
    l.contains a = false := by
  cases hc : l.contains a
  · rfl
  · exact absurd (by simpa using hc) h

theorem stripWrap_refTok (r : String) : stripWrap (refTok r) = r := by
  show String.mk ((('$' :: '{' :: (r.toList ++ ['}'])).drop 2).dropLast) = r
  rw [show ('$' :: '{' :: (r.toList ++ ['}'])).drop 2 = r.toList ++ ['}'] from rfl]
  rw [List.dropLast_concat]
  rfl

theorem evalText_plain (g : Nat) (r : String) (T : SymTable)
    (hlexi : tokensOf r = .ok [(.text, r.toList)]) :
    evalTextF (g + 2) r T = .ok (.vstr r, T) := by
  show (match tokensOf r with
    | .error e => Except.error e
    | .ok toks =>
      match evalTokens (g + 1) toks T with
      | .ok (vs, t') => Except.ok (composeResults vs, t')
      | .error e => Except.error e) = _
  rw [hlexi]
  show (match (match evalTokens g ([] : List (TokKind × List Char)) T with
      | .ok (vs, t') => Except.ok (Value.vstr (String.mk r.toList) :: vs, t')
      | .error e => Except.error e) with
    | .ok (vs, t') => Except.ok (composeResults vs, t')
    | .error e => Except.error e) = _
  rw [evalTokens_nil]
  rfl

/-- Evaluating the reference text `"${r}"` when resolving `r` fails (with
anything but a `KeyError`) wraps that failure with the offending
expression, exactly as `handle_expr` re-raises. -/
theorem ref_eval_err (g : Nat) (T : SymTable) (r : String) (e : XErr)
    (hlexr : tokensOf (refStr r) = .ok [(.expr, refTok r)])
    (hlexi : tokensOf r = .ok [(.text, r.toList)])
    (hparse : parseExpr (pyStrip r) = some (.name r))
    (hdund : strStartsWith r "__" = false)
    (hres : lookupResolve g T r = .error e)
    (hke : e.isKeyErr = false) :
    evalTextF (g + 5) (refStr r) T
      = .error (.wrapped e ("when evaluating expression " ++ r)) := by
  have hexp : evalExpr (g + 1) (.name r) T = .error e := by
    show (match lookupResolve g T r with
      | .error (.keyError _) => Except.error (XErr.nameError r)
      | r => r) = _
    rw [hres]
    cases e <;> first
      | rfl
      | simp [XErr.isKeyErr] at hke
  have hsafe : safeEvalV (g + 2) (.vstr r) T = .error e := by
    show (match parseExpr (pyStrip r) with
      | none => Except.error (XErr.syntaxError r)
      | some ex =>
        let bad := (collectNames ex).filter (fun n => strStartsWith n "__")
        if bad.isEmpty then evalExpr (g + 1) ex T
        else Except.error (XErr.invalidNames bad)) = _
    rw [hparse]
    show (if (([r].filter (fun n => strStartsWith n "__")).isEmpty) then
        evalExpr (g + 1) (.name r) T
      else Except.error (XErr.invalidNames ([r].filter (fun n => strStartsWith n "__")))) = _
    simp only [List.filter, hdund, List.isEmpty, if_true]
    exact hexp
  have hhe : handleExpr (g + 3) r T
      = .error (.wrapped e ("when evaluating expression " ++ r)) := by
    show (match evalTextF (g + 2) r T with
      | .error e' => Except.error (XErr.wrapped e' ("when evaluating expression " ++ r))
      | .ok (v, t1) =>
        match safeEvalV (g + 2) v t1 with
        | .error e' => Except.error (XErr.wrapped e' ("when evaluating expression " ++ r))
        | .ok res => Except.ok res) = _
    rw [evalText_plain g r T hlexi]
    show (match safeEvalV (g + 2) (.vstr r) T with
      | .error e' => Except.error (XErr.wrapped e' ("when evaluating expression " ++ r))
      | .ok res => Except.ok res) = _
    rw [hsafe]
  show (match tokensOf (refStr r) with
    | .error e' => Except.error e'
    | .ok toks =>
      match evalTokens (g + 4) toks T with
      | .ok (vs, t') => Except.ok (composeResults vs, t')
      | .error e' => Except.error e') = _
  rw [hlexr]
  show (match (match handleExpr (g + 3) (stripWrap (refTok r)) T with
      | .ok (v, t1) =>
        match evalTokens (g + 3) ([] : List (TokKind × List Char)) t1 with
        | .ok (vs, t2) => Except.ok (v :: vs, t2)
        | .error e' => Except.error e'
      | .error e' => Except.error e') with
    | .ok (vs, t') => Except.ok (composeResults vs, t')
    | .error e' => Except.error e') = _
  rw [stripWrap_refTok, hhe]

/-- An error whose root cause is circular is not a `KeyError`. -/
theorem isKeyErr_false_of_rootCause_circular {e : XErr} {c : List String}
    (h : e.rootCause = .circular c) : e.isKeyErr = false := by
  cases e <;> simp_all [XErr.rootCause, XErr.isKeyErr]

/-- One lazy-resolution step on an unevaluated cyclic definition: `p` is
pushed onto the `recursive` list and the reference text is evaluated in
the owning table; a failure there propagates. -/
theorem resolve_uneval_err (h : Nat) (ks : List String) (nxt : String → String)
    (pre : List String) (p : String) (root : List (String × Value))
    (launch : Bool) (e : XErr) (hmem : p ∈ ks) (hpre : pre.contains p = false)
    (he : evalTextF h (refStr (nxt p))
      ⟨[cycScope ks nxt (pre ++ [p])], root, launch⟩ = .error e) :
    lookupResolve (h + 2) ⟨[cycScope ks nxt pre], root, launch⟩ p = .error e := by
  have hcd : containsD (cycScope ks nxt pre).entries p = true := by
    unfold containsD cycScope
    rw [lookupD_map_self _ _ _ hmem]
    rfl
  have h1 : (cycScope ks nxt pre).uneval.contains p = true :=
    contains_eq_true_of_mem hmem
  have h3 : lookupD (cycScope ks nxt pre).entries p
      = some (.vstr (refStr (nxt p))) := lookupD_map_self _ _ _ hmem
  simp only [lookupResolve, hcd, if_true, resolveHere, h1,
    show (cycScope ks nxt pre).recur.contains p = false from hpre,
    Bool.false_eq_true, if_false, h3]
  rw [show (⟨(cycScope ks nxt pre).entries, (cycScope ks nxt pre).uneval,
      (cycScope ks nxt pre).recur ++ [p], (cycScope ks nxt pre).isNS⟩ : Scope)
    = cycScope ks nxt (pre ++ [p]) from rfl]
  rw [he]

/-- Re-resolving a key that is already on the `recursive` list is the
circular-definition error citing the whole resolution chain. -/
theorem resolve_recur_hit (h : Nat) (ks : List String) (nxt : String → String)
    (recur : List String) (p : String) (root : List (String × Value))
    (launch : Bool) (hmem : p ∈ ks) (hrec : recur.contains p = true) :
    lookupResolve (h + 2) ⟨[cycScope ks nxt recur], root, launch⟩ p
      = .error (.circular (recur ++ [p])) := by
  have hcd : containsD (cycScope ks nxt recur).entries p = true := by
    unfold containsD cycScope
    rw [lookupD_map_self _ _ _ hmem]
    rfl
  have h1 : (cycScope ks nxt recur).uneval.contains p = true :=
    contains_eq_true_of_mem hmem
  simp only [lookupResolve, hcd, if_true, resolveHere, h1,
    show (cycScope ks nxt recur).recur.contains p = true from hrec]
  rfl

theorem cyc_aux (ks : List String) (nxt : String → String) (k0 : String)
    (root : List (String × Value)) (launch : Bool)
    (hnd : ks.Nodup) (hk0 : k0 ∈ ks)
    (hadj : ∀ pre2 p2 q2 post2, ks ++ [k0] = pre2 ++ p2 :: q2 :: post2 → nxt p2 = q2)
    (hlexr : ∀ k ∈ ks, tokensOf (refStr k) = .ok [(.expr, refTok k)])
    (hlexi : ∀ k ∈ ks, tokensOf k = .ok [(.text, k.toList)])
    (hparse : ∀ k ∈ ks, parseExpr (pyStrip k) = some (.name k))
    (hdund : ∀ k ∈ ks, strStartsWith k "__" = false) :
    ∀ (post pre : List String) (p : String), pre ++ post = ks →
    post.head? = some p → ∀ fuel, 7 * post.length + 2 ≤ fuel →
    ∃ e, lookupResolve fuel ⟨[cycScope ks nxt pre], root, launch⟩ p = .error e ∧
      e.rootCause = .circular (ks ++ [k0]) := by
  intro post
  induction post with
  | nil => intro pre p hsplit hp; simp at hp
  | cons pp post' ih =>
    intro pre p0 hsplit hp fuel hf
    obtain rfl : pp = p0 := by simpa using hp
    obtain ⟨g, hg, rfl⟩ : ∃ g, 7 * post'.length + 2 ≤ g ∧ fuel = g + 7 :=
      ⟨fuel - 7, by simp at hf; omega, by simp at hf; omega⟩
    have hpmem : pp ∈ ks := by
      rw [← hsplit]; exact List.mem_append.mpr (Or.inr (List.mem_cons_self _ _))
    have hppre : pre.contains pp = false := by
      apply contains_eq_false_of_not_mem
      intro hin
      rw [← hsplit] at hnd
      exact (List.disjoint_of_nodup_append hnd) hin (List.mem_cons_self _ _)
    cases post' with
    | nil =>
      have hnx : nxt pp = k0 := hadj pre pp k0 [] (by rw [← hsplit]; simp)
      have hinner : lookupResolve g
          ⟨[cycScope ks nxt (pre ++ [pp])], root, launch⟩ (nxt pp)
          = .error (.circular ((pre ++ [pp]) ++ [k0])) := by
        obtain ⟨g2, rfl⟩ : ∃ g2, g = g2 + 2 := ⟨g - 2, by omega⟩
        rw [hnx]
        exact resolve_recur_hit g2 ks nxt (pre ++ [pp]) k0 root launch hk0
          (by rw [hsplit]; exact contains_eq_true_of_mem hk0)
      have hwrap := ref_eval_err g ⟨[cycScope ks nxt (pre ++ [pp])], root, launch⟩
        (nxt pp) (.circular ((pre ++ [pp]) ++ [k0]))
        (by rw [hnx]; exact hlexr k0 hk0)
        (by rw [hnx]; exact hlexi k0 hk0)
        (by rw [hnx]; exact hparse k0 hk0)
        (by rw [hnx]; exact hdund k0 hk0)
        hinner rfl
      have hout := resolve_uneval_err (g + 5) ks nxt pre pp root launch _
        hpmem hppre hwrap
      refine ⟨_, hout, ?_⟩
      show XErr.rootCause (.circular ((pre ++ [pp]) ++ [k0])) = _
      rw [hsplit]
      rfl
    | cons q rest =>
      have hnx : nxt pp = q := hadj pre pp q (rest ++ [k0]) (by rw [← hsplit]; simp)
      have hsplit' : (pre ++ [pp]) ++ (q :: rest) = ks := by rw [← hsplit]; simp
      obtain ⟨e', hres', hrc'⟩ := ih (pre ++ [pp]) q hsplit' rfl g
        (by simp at hg ⊢; omega)
      have hqmem : q ∈ ks := by
        rw [← hsplit']
        exact List.mem_append.mpr (Or.inr (List.mem_cons_self _ _))
      have hke := isKeyErr_false_of_rootCause_circular hrc'
      have hwrap := ref_eval_err g ⟨[cycScope ks nxt (pre ++ [pp])], root, launch⟩
        (nxt pp) e'
        (by rw [hnx]; exact hlexr q hqmem)
        (by rw [hnx]; exact hlexi q hqmem)
        (by rw [hnx]; exact hparse q hqmem)
        (by rw [hnx]; exact hdund q hqmem)
        (by rw [hnx]; exact hres') hke
      have hout := resolve_uneval_err (g + 5) ks nxt pre pp root launch _
        hpmem hppre hwrap
      refine ⟨_, hout, ?_⟩
      show XErr.rootCause e' = _
      exact hrc'

/-- C3: for every family of lazily evaluated property definitions whose
references form a cycle (`ks` pairwise distinct, each key bound
unevaluated to `"${nxt k}"`, and `nxt` stepping cyclically through `ks`
back to the head `k0`), reading the property `k0` fails, and the root
cause of the failure is the circular-definition error citing the full
resolution chain `ks ++ [k0]` — every identifier on the cycle, in
resolution order.  (Reading any other key of the cycle is this same
theorem applied to the corresponding rotation of `ks`.)  The side
conditions say each key lexes and parses as a plain identifier
reference. -/
theorem circular_definition_detected (ks : List String) (nxt : String → String)
    (k0 : String) (root : List (String × Value)) (launch : Bool)
    (hk0 : ks.head? = some k0) (hnd : ks.Nodup)
    (hchain : List.Chain' (fun a b => nxt a = b) (ks ++ [k0]))
    (hlexr : ∀ k ∈ ks, tokensOf (refStr k) = .ok [(.expr, refTok k)])
    (hlexi : ∀ k ∈ ks, tokensOf k = .ok [(.text, k.toList)])
    (hparse : ∀ k ∈ ks, parseExpr (pyStrip k) = some (.name k))
    (hdund : ∀ k ∈ ks, strStartsWith k "__" = false)
    (fuel : Nat) (hf : 7 * ks.length + 2 ≤ fuel) :
    ∃ e, lookupResolve fuel ⟨[cycScope ks nxt []], root, launch⟩ k0 = .error e ∧
      e.rootCause = .circular (ks ++ [k0]) := by
  have hk0m : k0 ∈ ks := by
    cases ks with
    | nil => simp at hk0
    | cons a l =>
      obtain rfl : a = k0 := by simpa using hk0
      exact List.mem_cons_self _ _
  have hadj : ∀ pre2 p2 q2 post2, ks ++ [k0] = pre2 ++ p2 :: q2 :: post2 →
      nxt p2 = q2 := fun pre2 p2 q2 post2 hl =>
    @chain'_adjacent String (fun a b => nxt a = b) (ks ++ [k0]) pre2 post2 p2 q2
      hchain hl
  exact cyc_aux ks nxt k0 root launch hnd hk0m hadj hlexr hlexi hparse hdund
    ks [] k0 rfl hk0 fuel hf

/-- Witness for C3: the two-property cycle `a = "${b}"`, `b = "${a}"`;
reading `a` fails with root cause `circular ["a", "b", "a"]`. -/
theorem circular_definition_detected_witness :
    ∃ e, lookupResolve 20
      ⟨[cycScope ["a", "b"] (fun k => if k = "a" then "b" else "a") []], [], false⟩
      "a" = .error e ∧
      e.rootCause = .circular ["a", "b", "a"] := by
  have h := circular_definition_detected ["a", "b"]
    (fun k => if k = "a" then "b" else "a") "a" [] false
    (by decide) (by decide)
    (by refine List.chain'_cons.mpr ⟨by decide, ?_⟩
        refine List.chain'_cons.mpr ⟨by decide, ?_⟩
        exact List.chain'_singleton _)
    (by decide) (by decide) (by decide) (by decide)
    20 (by decide)
  simpa using h

/-- Witness for C8-as-amended at its concrete inputs. -/
theorem underscore_text_kept_verbatim_witness :
    evalLiteral "a_b" = .vstr "a_b" ∧
    lookupD (((SymTable.setItemAt ⟨[⟨[], [], [], false⟩], [], false⟩
      0 "p" (.vstr "1_000") true).scopes.get ⟨0, by decide⟩).entries) "p"
      = some (.vstr "1_000") := by
  refine ⟨underscore_text_kept_verbatim.1 "a_b" (by decide) (by decide), ?_⟩
  have h := underscore_text_kept_verbatim.2.2.2.2.2.2.2
    ⟨[⟨[], [], [], false⟩], [], false⟩ 0 "p" "1_000" true (by decide)
    (by decide) (by decide)
  simpa using h


/-- Counterexample for C2: the claim coerces every non-literal value via
`bool(int(x))`, but the source applies `bool(int(x))` only to strings and
plain truthiness `bool(x)` to typed values: the float `0.5` (for example
from `value="${0.5}"`) is truthy in the code, while the claim's coercion
`bool(int(0.5))` is false. -/
theorem float_conditional_truthiness :
    getBooleanValue (.vfloat (mkRat 1 2)) none = .ok true ∧
    specBoolCoerce (.vfloat (mkRat 1 2)) none = .ok false := by
  constructor
  · rfl
  · rfl

/-- C2 (amended): the evaluated `value` of `xacro:if`/`xacro:unless` is
coerced by `get_boolean_value` as follows — the strings `"true"/"True"`
yield true and `"false"/"False"` yield false, every OTHER STRING `s`
yields `bool(int(s))` (the bad-conditional error when `int(s)` fails) —
but a non-string (typed) result `x` is coerced by plain Python truthiness
`bool(x)`, NOT `bool(int(x))`: an int or float is true iff nonzero, a
bool is itself, so the float `0.5` is true although `bool(int(0.5))` is
false.  On true (for `if`) or false (for `unless`) the element's children
are kept (and the comment-stripping sentinel managed), otherwise the
element is removed, as the document-level run shows. -/
theorem conditional_value_coercion :
    (∀ cond, getBooleanValue (.vstr "true") cond = .ok true) ∧
    (∀ cond, getBooleanValue (.vstr "True") cond = .ok true) ∧
    (∀ cond, getBooleanValue (.vstr "false") cond = .ok false) ∧
    (∀ cond, getBooleanValue (.vstr "False") cond = .ok false) ∧
    (∀ cond s n, s ≠ "true" → s ≠ "True" → s ≠ "false" → s ≠ "False" →
       pyParseInt s = some n →
       getBooleanValue (.vstr s) cond = .ok (decide (n ≠ 0))) ∧
    (∀ cond s, s ≠ "true" → s ≠ "True" → s ≠ "false" → s ≠ "False" →
       pyParseInt s = none →
       getBooleanValue (.vstr s) cond =
         .error (.badConditional (cond.getD ""))) ∧
    (∀ cond i, getBooleanValue (.vint i) cond = .ok (decide (i ≠ 0))) ∧
    (∀ cond q, getBooleanValue (.vfloat q) cond = .ok (decide (q ≠ 0))) ∧
    (∀ cond b, getBooleanValue (.vbool b) cond = .ok b) ∧
    (processDoc 80 conditionalDoc [] emptyCtx).map (fun p => p.1) =
      .ok (.elem "robot" []
        [.elem "a" [] [], .elem "d" [] [], .elem "e" [] [], sentinelNode]) := by
  refine ⟨fun _ => rfl, fun _ => rfl, fun _ => rfl, fun _ => rfl,
    ?_, ?_, fun _ _ => rfl, fun _ _ => rfl, fun _ _ => rfl, rfl⟩
  · intro cond s n h1 h2 h3 h4 hint
    simp only [getBooleanValue, hint]
    rw [if_neg (by simp [h1, h2]), if_neg (by simp [h3, h4])]
  · intro cond s h1 h2 h3 h4 hint
    simp only [getBooleanValue, hint]
    rw [if_neg (by simp [h1, h2]), if_neg (by simp [h3, h4])]

/-- Witness for C2's amended theorem: the string `"2"` is coerced via
`bool(int("2")) = true`, and the string `"0.5"` raises the
bad-conditional error citing the condition text. -/
theorem conditional_value_coercion_witness :
    getBooleanValue (.vstr "2") none = .ok true ∧
    getBooleanValue (.vstr "0.5") (some "0.5") =
      .error (.badConditional "0.5") := by
  constructor
  · exact conditional_value_coercion.2.2.2.2.1 none "2" 2
      (by decide) (by decide) (by decide) (by decide) (by decide)
  · exact conditional_value_coercion.2.2.2.2.2.1 (some "0.5") "0.5"
      (by decide) (by decide) (by decide) (by decide) (by decide)

theorem all_takeWhile {α : Type} (p : α → Bool) (l : List α)
    (h : l.all p = true) : l.takeWhile p = l := by
  induction l with
  | nil => rfl
  | cons x xs ih =>
    simp only [List.all_cons, Bool.and_eq_true] at h
    simp [List.takeWhile_cons, h.1, ih h.2]

theorem eraseD_of_ne_keys {α : Type} (es : List (String × α)) (k : String)
    (h : ∀ p ∈ es, p.1 ≠ k) : eraseD es k = es := by
  induction es with
  | nil => rfl
  | cons p rest ih =>
    obtain ⟨pk, pv⟩ := p
    have hk : pk ≠ k := h (pk, pv) (List.mem_cons_self _ _)
    simp only [eraseD, if_neg hk]
    rw [ih (fun q hq => h q (List.mem_cons_of_mem _ hq))]

theorem matchExprTok_no_dollar (c : Char) (cs : List Char) (hc : ¬ c = '$') :
    matchExprTok (c :: cs) = none := by
  unfold matchExprTok
  split
  · rename_i heq
    injection heq with h1 _
    exact absurd h1 hc
  · rfl

theorem matchExtTok_no_dollar (c : Char) (cs : List Char) (hc : ¬ c = '$') :
    matchExtTok (c :: cs) = none := by
  unfold matchExtTok
  split
  · rename_i heq
    injection heq with h1 _
    exact absurd h1 hc
  · rfl

theorem matchDollarBrace_no_dollar (c : Char) (cs : List Char) (hc : ¬ c = '$') :
    matchDollarBrace (c :: cs) = none := by
  unfold matchDollarBrace
  simp [List.takeWhile_cons, hc]

theorem matchTextTok_plain (c : Char) (cs : List Char) (hc : ¬ c = '$')
    (hall : (c :: cs).all (fun x => decide (x ≠ '$')) = true) :
    matchTextTok (c :: cs) = some (c :: cs, []) := by
  unfold matchTextTok
  split
  · rename_i heq
    exact absurd heq (List.cons_ne_nil c cs)
  · rename_i rest heq
    injection heq with h1 _
    exact absurd h1 hc
  · rw [show List.takeWhile (fun x => decide (x ≠ '$')) (c :: cs) = c :: cs from
      all_takeWhile _ _ hall]
    simp [List.drop_length]

theorem lexStep_plain (c : Char) (cs : List Char)
    (hall : (c :: cs).all (fun x => decide (x ≠ '$')) = true) :
    lexStep (c :: cs) = some ((.text, c :: cs), []) := by
  have hc : ¬ c = '$' := by
    simp only [List.all_cons, Bool.and_eq_true] at hall
    simpa using hall.1
  unfold lexStep
  rw [matchDollarBrace_no_dollar c cs hc, matchExprTok_no_dollar c cs hc,
    matchExtTok_no_dollar c cs hc, matchTextTok_plain c cs hc hall]

theorem evalTokens_nil_any (f : Nat) (t : SymTable) :
    evalTokens f [] t = .ok ([], t) := by
  cases f <;> rfl

theorem evalTextF_plain (f : Nat) (s : String) (t : SymTable)
    (h : s.toList.all (fun x => decide (x ≠ '$')) = true) :
    evalTextF (f + 2) s t = .ok (.vstr s, t) := by
  obtain ⟨cs⟩ := s
  cases cs with
  | nil =>
    show (match evalTokens (f + 1) [] t with
      | Except.ok (vs, t1) => Except.ok (composeResults vs, t1)
      | Except.error e => Except.error e) = Except.ok (Value.vstr ⟨[]⟩, t)
    rw [evalTokens_nil_any]
    rfl
  | cons c cs1 =>
    have hstep := lexStep_plain c cs1 h
    have htoks : tokensOf ⟨c :: cs1⟩ = .ok [(TokKind.text, c :: cs1)] := by
      show (match lexStep (c :: cs1) with
         | some (tok, rest) =>
           (match tokensOfAux (cs1.length + 1) rest with
            | Except.ok ts => Except.ok (tok :: ts)
            | Except.error e => Except.error e)
         | none => Except.error (XErr.lexError (String.mk (c :: cs1)))) = _
      rw [hstep]
      show (match tokensOfAux (cs1.length + 1) [] with
         | Except.ok ts => Except.ok ((TokKind.text, c :: cs1) :: ts)
         | Except.error e => Except.error e) = _
      rw [show tokensOfAux (cs1.length + 1) [] = .ok [] from by
        cases cs1 <;> rfl]
    have h2 : evalTokens (f + 1) [(TokKind.text, c :: cs1)] t
        = .ok ([.vstr (String.mk (c :: cs1))], t) := by
      show (match evalTokens f [] t with
        | Except.ok (vs, t1) =>
          Except.ok (Value.vstr (String.mk (c :: cs1)) :: vs, t1)
        | Except.error e => Except.error e) = _
      rw [evalTokens_nil_any]
    show (match tokensOf ⟨c :: cs1⟩ with
      | Except.error e => Except.error e
      | Except.ok toks =>
        match evalTokens (f + 1) toks t with
        | Except.ok (vs, t1) => Except.ok (composeResults vs, t1)
        | Except.error e => Except.error e)
      = Except.ok (Value.vstr ⟨c :: cs1⟩, t)
    rw [htoks]
    show (match evalTokens (f + 1) [(TokKind.text, c :: cs1)] t with
      | Except.ok (vs, t1) => Except.ok (composeResults vs, t1)
      | Except.error e => Except.error e)
      = Except.ok (Value.vstr ⟨c :: cs1⟩, t)
    rw [h2]
    rfl



theorem ne_of_not_xacro {tg : String} (lit : String)
    (h : strStartsWith tg "xacro:" = false)
    (hlit : strStartsWith lit "xacro:" = true) : tg ≠ lit := by
  intro he
  rw [he, hlit] at h
  exact absurd h (by decide)

theorem evalChildren_elem_nonxacro (f : Nat) (tg : String)
    (ca : List (String × String)) (cc rest acc : List XNode)
    (pattrs : List (String × String)) (evc : Bool) (st : St) (ctx : Ctx)
    (htag : strStartsWith tg "xacro:" = false) :
    evalChildren (f + 2) (XNode.elem tg ca cc :: rest) acc pattrs evc st ctx =
    (match evalAll (f + 1) (XNode.elem tg ca cc) st ctx with
     | .error e => .error e
     | .ok (c1, st1) => evalChildren (f + 1) rest (acc ++ [c1]) pattrs false st1 ctx) := by
  have h1 := ne_of_not_xacro "xacro:insert_block" htag (by decide)
  have h2 := ne_of_not_xacro "xacro:include" htag (by decide)
  have h3 := ne_of_not_xacro "xacro:property" htag (by decide)
  have h4 := ne_of_not_xacro "xacro:macro" htag (by decide)
  have h5 := ne_of_not_xacro "xacro:arg" htag (by decide)
  have h6 := ne_of_not_xacro "xacro:element" htag (by decide)
  have h7 := ne_of_not_xacro "xacro:attribute" htag (by decide)
  have h8 := ne_of_not_xacro "xacro:if" htag (by decide)
  have h9 := ne_of_not_xacro "xacro:unless" htag (by decide)
  have h10 := ne_of_not_xacro "xacro:call" htag (by decide)
  have hmc : handleMacroCall (f + 1) (XNode.elem tg ca cc) st ctx
      = .ok (none, st) := by
    show (if tg = "xacro:call" then _ else _) = _
    rw [if_neg h10]
    rw [if_pos (show ¬ strStartsWith tg "xacro:" = true by simp [htag])]
  simp only [evalChildren]
  rw [if_neg h1, if_neg h2, if_neg h3, if_neg h4, if_neg h5, if_neg h6,
    if_neg h7, if_neg (show ¬ (tg = "xacro:if" ∨ tg = "xacro:unless") from
      not_or.mpr ⟨h8, h9⟩), hmc]



theorem fuelA_pos (a : List (String × String)) : 1 ≤ fuelA a := by
  cases a <;> simp only [fuelA] <;> omega

theorem fuelL_pos (l : List XNode) : 1 ≤ fuelL l := by
  cases l <;> simp only [fuelL] <;> omega

theorem fuelN_pos (n : XNode) : 1 ≤ fuelN n := by
  cases n <;> simp only [fuelN] <;> omega

theorem inertAttrs_cons {n v : String} {rest : List (String × String)}
    (h : inertAttrs ((n, v) :: rest) = true) :
    strStartsWith n "xacro:" = false ∧ n ≠ "xmlns:xacro" ∧
    v.toList.all (fun c => decide (c ≠ '$')) = true ∧ inertAttrs rest = true := by
  simp only [inertAttrs, List.all_cons, Bool.and_eq_true, Bool.not_eq_true',
    bne_iff_ne] at h
  exact ⟨h.1.1.1, h.1.1.2, h.1.2, h.2⟩

theorem eraseD_inert (a : List (String × String))
    (h : inertAttrs a = true) : eraseD a "xmlns:xacro" = a := by
  refine eraseD_of_ne_keys a _ (fun p hp => ?_)
  have h2 := List.all_eq_true.mp h p hp
  simp only [Bool.and_eq_true, bne_iff_ne] at h2
  exact h2.1.2

theorem inert_walk : ∀ f : Nat,
    (∀ a st ctx, inertAttrs a = true → fuelA a ≤ f →
      evalAttrs f a st ctx = .ok (a, st)) ∧
    (∀ l acc pattrs st ctx, inertL l = true → fuelL l ≤ f →
      evalChildren f l acc pattrs false st ctx = .ok (acc ++ l, pattrs, st)) ∧
    (∀ tg a c st ctx, inertN (.elem tg a c) = true →
      fuelN (.elem tg a c) ≤ f →
      evalAll f (.elem tg a c) st ctx = .ok (.elem tg a c, st)) := by
  intro f
  induction f with
  | zero =>
    refine ⟨fun a _ _ _ hf => ?_, fun l _ _ _ _ _ hf => ?_,
      fun tg a c _ _ _ hf => ?_⟩
    · exact absurd hf (by have := fuelA_pos a; omega)
    · exact absurd hf (by have := fuelL_pos l; omega)
    · exact absurd hf (by simp only [fuelN]; omega)
  | succ f ih =>
    obtain ⟨ihA, ihL, ihN⟩ := ih
    refine ⟨?_, ?_, ?_⟩
    · -- attributes
      intro a st ctx hin hf
      cases a with
      | nil => rfl
      | cons nv rest =>
        obtain ⟨n, v⟩ := nv
        obtain ⟨hx, _, hv, htail⟩ := inertAttrs_cons hin
        have hfr : fuelA rest + 3 ≤ f + 1 := by
          simpa [fuelA, Nat.add_comm] using hf
        obtain ⟨g, rfl⟩ : ∃ g, f = g + 2 :=
          ⟨f - 2, by have := fuelA_pos rest; omega⟩
        show (if strStartsWith n "xacro:" = true
            then evalAttrs (g + 2) rest st ctx
            else match evalTextF (g + 2) v st.syms with
              | Except.error e => Except.error e
              | Except.ok (w, syms1) =>
                match evalAttrs (g + 2) rest { st with syms := syms1 } ctx with
                | Except.error e => Except.error e
                | Except.ok (rest1, st1) =>
                  Except.ok ((n, pyStr w) :: rest1, st1))
          = Except.ok ((n, v) :: rest, st)
        rw [if_neg (by simp [hx])]
        rw [evalTextF_plain g v st.syms hv]
        show (match evalAttrs (g + 2) rest st ctx with
          | Except.error e => Except.error e
          | Except.ok (rest1, st1) =>
            Except.ok ((n, pyStr (Value.vstr v)) :: rest1, st1))
          = Except.ok ((n, v) :: rest, st)
        rw [ihA rest st ctx htail (by omega)]
        rfl
    · -- children
      intro l acc pattrs st ctx hin hf
      cases l with
      | nil =>
        rw [List.append_nil]
        rfl
      | cons ch rest =>
        have hin2 : inertN ch = true ∧ inertL rest = true := by
          simpa [inertL, Bool.and_eq_true] using hin
        cases ch with
        | text d sent =>
          have hd : d.toList.all (fun c => decide (c ≠ '$')) = true := by
            simpa [inertN] using hin2.1
          have hfr : 2 + 3 + fuelL rest ≤ f + 1 := by
            simpa [fuelL, fuelN] using hf
          obtain ⟨g, rfl⟩ : ∃ g, f = g + 2 :=
            ⟨f - 2, by have := fuelL_pos rest; omega⟩
          show (match evalTextF (g + 2) d st.syms with
            | Except.error e => Except.error e
            | Except.ok (v, syms1) =>
              evalChildren (g + 2) rest (acc ++ [XNode.text (pyStr v) sent])
                pattrs (if pyStrip (pyStr v) ≠ "" then false else false)
                { st with syms := syms1 } ctx)
            = Except.ok (acc ++ (XNode.text d sent :: rest), pattrs, st)
          rw [evalTextF_plain g d st.syms hd]
          show evalChildren (g + 2) rest (acc ++ [XNode.text d sent])
              pattrs (if pyStrip d ≠ "" then false else false) st ctx
            = Except.ok (acc ++ (XNode.text d sent :: rest), pattrs, st)
          rw [ite_self]
          rw [ihL rest (acc ++ [XNode.text d sent]) pattrs st ctx hin2.2
            (by omega)]
          simp
        | comment d =>
          have hcf : containsSubstr d "xacro:eval-comments" = false := by
            simpa [inertN] using hin2.1
          have hfr : 2 + 1 + fuelL rest ≤ f + 1 := by
            simpa [fuelL, fuelN] using hf
          show (if containsSubstr d "xacro:eval-comments" = true
            then evalChildren f rest acc pattrs
              (!containsSubstr d "xacro:eval-comments:off") st ctx
            else evalChildren f rest (acc ++ [XNode.comment d]) pattrs
              false st ctx)
            = Except.ok (acc ++ (XNode.comment d :: rest), pattrs, st)
          rw [if_neg (by simp [hcf])]
          rw [ihL rest (acc ++ [XNode.comment d]) pattrs st ctx hin2.2
            (by omega)]
          simp
        | elem tg ca cc =>
          have htag : strStartsWith tg "xacro:" = false := by
            have := hin2.1
            simp only [inertN, Bool.and_eq_true, Bool.not_eq_true'] at this
            exact this.1.1
          have hfr : 2 + fuelN (XNode.elem tg ca cc) + fuelL rest ≤ f + 1 := by
            simpa [fuelL] using hf
          obtain ⟨g, rfl⟩ : ∃ g, f = g + 1 :=
            ⟨f - 1, by have := fuelN_pos (XNode.elem tg ca cc);
                       have := fuelL_pos rest; omega⟩
        -- f + 1 = g + 2
          rw [evalChildren_elem_nonxacro g tg ca cc rest acc pattrs false st
            ctx htag]
          rw [ihN tg ca cc st ctx hin2.1 (by omega)]
          show evalChildren (g + 1) rest (acc ++ [XNode.elem tg ca cc])
              pattrs false st ctx
            = Except.ok (acc ++ (XNode.elem tg ca cc :: rest), pattrs, st)
          rw [ihL rest (acc ++ [XNode.elem tg ca cc]) pattrs st ctx hin2.2
            (by omega)]
          simp
    · -- eval_all on an element
      intro tg a c st ctx hin hf
      have hcomp : inertAttrs a = true ∧ inertL c = true := by
        simp only [inertN, Bool.and_eq_true, Bool.not_eq_true'] at hin
        exact ⟨hin.1.2, hin.2⟩
      have hfa : fuelA a ≤ f := by
        have : 1 + fuelA a + fuelL c ≤ f + 1 := by simpa [fuelN] using hf
        have := fuelL_pos c
        omega
      have hfl : fuelL c ≤ f := by
        have : 1 + fuelA a + fuelL c ≤ f + 1 := by simpa [fuelN] using hf
        have := fuelA_pos a
        omega
      show (match evalAttrs f a st ctx with
        | Except.error e => Except.error e
        | Except.ok (attrs1, st1) =>
          match evalChildren f c [] (eraseD attrs1 "xmlns:xacro") false st1
              ctx with
          | Except.error e => Except.error e
          | Except.ok (children1, pattrs1, st2) =>
            Except.ok (XNode.elem tg pattrs1 children1, st2))
        = Except.ok (XNode.elem tg a c, st)
      rw [ihA a st ctx hcomp.1 hfa]
      show (match evalChildren f c [] (eraseD a "xmlns:xacro") false st
          ctx with
        | Except.error e => Except.error e
        | Except.ok (children1, pattrs1, st2) =>
          Except.ok (XNode.elem tg pattrs1 children1, st2))
        = Except.ok (XNode.elem tg a c, st)
      rw [eraseD_inert a hcomp.1]
      rw [ihL c [] a st ctx hcomp.2 hfl]
      rfl



/-- C4 (amended): expansion is not idempotent in general (a
macro-namespace document root survives, `xacro:attribute` can install
macro-namespace attributes, and the `$$` escape is unescaped anew on
every run), but on the inert fragment a run is the identity: if every
element tag and attribute name lies outside the macro namespace, no
`xmlns:xacro` declaration is present, no attribute value or text node
contains a `$`, and no comment carries the `xacro:eval-comments` pragma,
then processing returns the document unchanged — so feeding the output
of such a run back into the evaluator reproduces it. -/
theorem expansion_identity_on_inert (tg : String)
    (a : List (String × String)) (c : List XNode)
    (m : List (String × String)) (ctx : Ctx) (f : Nat)
    (hin : inertN (.elem tg a c) = true)
    (hf : fuelN (.elem tg a c) ≤ f) :
    (processDoc f (.elem tg a c) m ctx).map (fun p => p.1) =
      .ok (.elem tg a c) := by
  have hattrs : inertAttrs a = true := by
    simp only [inertN, Bool.and_eq_true] at hin
    exact hin.1.2
  have hlook : lookupD a "xacro:targetNamespace" = none := by
    refine lookupD_none_of_not_mem (fun hmem => ?_)
    obtain ⟨p, hp, hpk⟩ := List.mem_map.mp hmem
    have h2 := List.all_eq_true.mp hattrs p hp
    simp only [Bool.and_eq_true, Bool.not_eq_true'] at h2
    exact ne_of_not_xacro "xacro:targetNamespace" h2.1.1 (by decide)
      (hpk ▸ rfl)
  have hmain := (inert_walk f).2.2 tg a c
    ⟨⟨[Scope.fresh false], globalSymbols, false⟩, [[]], m⟩ ctx hin hf
  simp only [processDoc]
  rw [hlook]
  simp only [Option.getD]
  rw [if_neg (by simp)]
  rw [hmain]
  rfl

/-- Witness for C4's amended theorem at a concrete inert document. -/
theorem expansion_identity_on_inert_witness :
    inertN (.elem "robot" [("x", "1")]
      [.text "hello" false, .comment "note", .elem "p" [] []]) = true ∧
    (processDoc 20 (.elem "robot" [("x", "1")]
        [.text "hello" false, .comment "note", .elem "p" [] []])
      [] emptyCtx).map (fun p => p.1) =
      .ok (.elem "robot" [("x", "1")]
        [.text "hello" false, .comment "note", .elem "p" [] []]) :=
  ⟨by decide, expansion_identity_on_inert "robot" [("x", "1")]
    [.text "hello" false, .comment "note", .elem "p" [] []]
    [] emptyCtx 20 (by decide) (by decide)⟩



theorem string_ext {x y : String} (h : x.data = y.data) : x = y := by
  cases x; cases y; exact congrArg String.mk h

theorem mName_inj {i j : Nat} (h : mName i = mName j) : i = j := by
  have h2 := congrArg String.data h
  simp only [mName] at h2
  have h3 : List.replicate i 'i' = List.replicate j 'i' := by
    injection h2
  have h4 := congrArg List.length h3
  simpa using h4

theorem mName_ne_head (i : Nat) (lit : String)
    (hl : lit.data.head? ≠ some 'm') : mName i ≠ lit := by
  intro h
  have h2 := congrArg String.data h
  simp only [mName] at h2
  rw [← h2] at hl
  simp at hl

theorem mName_ne_macro_str (i : Nat) : mName i ≠ "macro" := by
  intro h
  have h2 := congrArg String.data h
  simp only [mName] at h2
  have h3 : List.replicate i 'i' = ['a', 'c', 'r', 'o'] :=
    (List.cons.inj h2).2
  cases i with
  | zero => simp [List.replicate] at h3
  | succ n =>
    rw [List.replicate_succ] at h3
    have := (List.cons.inj h3).1
    simp at this

theorem string_data_append (x y : String) :
    (x ++ y).data = x.data ++ y.data := by
  cases x; cases y; rfl

theorem callTag_ne_tag (i : Nat) (nm : String) (hne : mName i ≠ nm) :
    callTag i ≠ ("xacro:" ++ nm) := by
  intro h
  have h2 := congrArg String.data h
  rw [callTag, string_data_append, string_data_append] at h2
  have h3 : (mName i).data = nm.data := by simpa using h2
  exact hne (string_ext h3)

theorem callTag_startsWith (i : Nat) :
    strStartsWith (callTag i) "xacro:" = true := rfl

theorem callTag_drop (i : Nat) :
    String.mk ((callTag i).toList.drop 6) = mName i := rfl

theorem mName_plain (i : Nat) :
    (mName i).toList.all (fun c => decide (c ≠ '$')) = true := by
  rw [show (mName i).toList = 'm' :: List.replicate i 'i' from rfl]
  rw [List.all_eq_true]
  intro x hx
  rcases List.mem_cons.mp hx with h | h
  · subst h; decide
  · rw [List.eq_of_mem_replicate h]; decide

theorem lookupMacroChain_cons_nil (ms : MacroChain) (k : String) :
    lookupMacroChain ([] :: ms) k = lookupMacroChain ms k := rfl

theorem lookupD_setD_ne {α : Type} (es : List (String × α)) (k k1 : String)
    (v : α) (h : k1 ≠ k) : lookupD (setD es k v) k1 = lookupD es k1 := by
  induction es with
  | nil =>
    simp only [setD, lookupD]
    rw [if_neg (Ne.symm h)]
  | cons p rest ih =>
    obtain ⟨pk, pv⟩ := p
    by_cases hp : pk = k
    · subst hp
      simp only [setD, if_pos rfl, lookupD]
      rw [if_neg (Ne.symm h), if_neg (Ne.symm h)]
    · simp only [setD, if_neg hp, lookupD, ih]

theorem towerScope_lookup_preserve (d : Nat)
    (sc : List (String × MacroDef)) (k : String)
    (hk : ∀ j, j ≤ d → k ≠ mName j) :
    lookupD (towerScope d sc) k = lookupD sc k := by
  induction d generalizing sc with
  | zero => exact lookupD_setD_ne sc (mName 0) k _ (hk 0 (le_refl 0))
  | succ d ihd =>
    show lookupD (towerScope d (setD sc (mName (d+1)) (towerMac (d+1)))) k
      = lookupD sc k
    rw [ihd _ (fun j hj => hk j (Nat.le_succ_of_le hj))]
    exact lookupD_setD_ne sc (mName (d+1)) k _ (hk (d+1) (le_refl _))

theorem towerScope_lookup (d : Nat) (sc : List (String × MacroDef))
    (j : Nat) (hj : j ≤ d) :
    lookupD (towerScope d sc) (mName j) = some (towerMac j) := by
  induction d generalizing sc with
  | zero =>
    have : j = 0 := Nat.le_zero.mp hj
    subst this
    exact lookupD_setD_self sc (mName 0) (towerMac 0)
  | succ d ihd =>
    show lookupD (towerScope d (setD sc (mName (d+1)) (towerMac (d+1))))
        (mName j) = some (towerMac j)
    rcases Nat.lt_or_ge j (d+1) with hlt | hge
    · exact ihd _ (Nat.lt_succ_iff.mp hlt)
    · have : j = d + 1 := Nat.le_antisymm hj hge
      subst this
      rw [towerScope_lookup_preserve d _ (mName (d+1))
        (fun jj hjj h => by
          have := mName_inj h
          omega)]
      exact lookupD_setD_self sc (mName (d+1)) (towerMac (d+1))

/-- `eval_all` on an element with no attributes and no children. -/
theorem evalAll_empty (f : Nat) (tg : String) (st : St) (ctx : Ctx)
    (hf : 2 ≤ f) : evalAll f (.elem tg [] []) st ctx = .ok (.elem tg [] [], st) := by
  obtain ⟨g, rfl⟩ : ∃ g, f = g + 2 := ⟨f - 2, by omega⟩
  rfl

theorem evalChildren_nil (f : Nat) (acc : List XNode)
    (pattrs : List (String × String)) (evc : Bool) (st : St) (ctx : Ctx)
    (hf : 1 ≤ f) :
    evalChildren f [] acc pattrs evc st ctx = .ok (acc, pattrs, st) := by
  obtain ⟨g, rfl⟩ : ∃ g, f = g + 1 := ⟨f - 1, by omega⟩
  rfl

/-- The attribute pass on a `name`/`params` declaration header whose
name is `$`-free. -/
theorem evalAttrs_nameparams (f : Nat) (nm : String) (sy : SymTable)
    (ma : MacroChain) (ar : List (String × String)) (ctx : Ctx)
    (hnm : nm.toList.all (fun c => decide (c ≠ '$')) = true)
    (hf : 4 ≤ f) :
    evalAttrs f [("name", nm), ("params", "")] ⟨sy, ma, ar⟩ ctx
      = .ok ([("name", nm), ("params", "")], ⟨sy, ma, ar⟩) := by
  obtain ⟨g, rfl⟩ : ∃ g, f = g + 4 := ⟨f - 4, by omega⟩
  have hp : evalAttrs (g + 1 + 2) [("params", "")] (St.mk sy ma ar) ctx
      = .ok ([("params", "")], St.mk sy ma ar) := by
    show (match evalTextF (g + 2) "" sy with
      | Except.error e => Except.error e
      | Except.ok (w, syms1) =>
        match evalAttrs (g + 2) [] (St.mk syms1 ma ar) ctx with
        | Except.error e => Except.error e
        | Except.ok (rest1, st1) =>
          Except.ok (("params", pyStr w) :: rest1, st1)) = _
    rw [evalTextF_plain g "" sy (by decide)]
    rfl
  show (match evalTextF (g + 1 + 2) nm sy with
    | Except.error e => Except.error e
    | Except.ok (w, syms1) =>
      match evalAttrs (g + 1 + 2) [("params", "")] (St.mk syms1 ma ar)
          ctx with
      | Except.error e => Except.error e
      | Except.ok (rest1, st1) =>
        Except.ok (("name", pyStr w) :: rest1, st1)) = _
  rw [evalTextF_plain (g + 1) nm sy hnm]
  show (match evalAttrs (g + 1 + 2) [("params", "")] (St.mk sy ma ar)
      ctx with
    | Except.error e => Except.error e
    | Except.ok (rest1, st1) =>
      Except.ok (("name", pyStr (Value.vstr nm)) :: rest1, st1)) = _
  rw [hp]
  rfl



theorem callTag_ne_lit (i : Nat) (nm lit : String)
    (hl : lit = "xacro:" ++ nm) (hne : mName i ≠ nm) : callTag i ≠ lit :=
  hl ▸ callTag_ne_tag i nm hne

/-- `handle_macro_call` on an attribute- and child-less call node whose
tag resolves to macro `m` (the `bindCallParams` loop is vacuous). -/
theorem handleMacroCall_nilcall (f1 : Nat) (tg : String) (st : St)
    (ctx : Ctx) (m : MacroDef) (hcall : tg ≠ "xacro:call")
    (hpre : strStartsWith tg "xacro:" = true)
    (hres : resolveMacroName st.macros (String.mk (tg.toList.drop 6))
      = some m) :
    handleMacroCall (f1 + 1) (.elem tg [] []) st ctx =
    (match evalAll f1 (.elem tg [] []) st ctx with
     | Except.error e => Except.error e
     | Except.ok (node1, st1) =>
       match consumeBlocks m.params (elemChildren node1.children)
           (Scope.fresh false) with
       | Except.error e => Except.error e
       | Except.ok (params2, leftover, scoped2) =>
         match leftover with
         | b :: _ => Except.error (XErr.unusedBlock b.tag)
         | [] =>
           match bindDefaults f1 m params2 scoped2 st1.syms with
           | Except.error e => Except.error e
           | Except.ok (params3, scoped3, syms2) =>
             if params3 ≠ [] then Except.error (XErr.undefinedParams params3)
             else
               match evalAll f1 m.body
                   (St.mk ⟨scoped3 :: syms2.scopes, syms2.root, syms2.launch⟩
                     ([] :: st1.macros) st1.args) ctx with
               | Except.error e => Except.error e
               | Except.ok (body1, st2) =>
                 match st2.syms.scopes, st2.macros with
                 | _ :: symRest, _ :: macRest =>
                   Except.ok (some (body1.children, body1.attrs),
                     St.mk ⟨symRest, st2.syms.root, st2.syms.launch⟩
                       macRest st2.args)
                 | _, _ =>
                   Except.error (XErr.hostError "scope chain corrupted")) := by
  simp only [handleMacroCall]
  rw [if_neg hcall, if_neg (show ¬¬(strStartsWith tg "xacro:" = true) from
    not_not_intro hpre)]
  rw [hres]
  rfl

/-- The child dispatch on a macro-call element, with no previously
emitted siblings. -/
theorem evalChildren_call_acc_nil (f : Nat) (tg : String)
    (ca : List (String × String)) (cc rest : List XNode)
    (pattrs : List (String × String)) (evc : Bool) (st : St) (ctx : Ctx)
    (h1 : tg ≠ "xacro:insert_block") (h2 : tg ≠ "xacro:include")
    (h3 : tg ≠ "xacro:property") (h4 : tg ≠ "xacro:macro")
    (h5 : tg ≠ "xacro:arg") (h6 : tg ≠ "xacro:element")
    (h7 : tg ≠ "xacro:attribute") (h8 : tg ≠ "xacro:if")
    (h9 : tg ≠ "xacro:unless") :
    evalChildren (f + 1) (XNode.elem tg ca cc :: rest) [] pattrs evc st ctx =
    (match handleMacroCall f (XNode.elem tg ca cc) st ctx with
     | Except.error e => Except.error e
     | Except.ok (some (repl, nsAttrs), st1) =>
       evalChildren f rest repl (importXmlNamespaces pattrs nsAttrs) false
         st1 ctx
     | Except.ok (none, st1) =>
       match evalAll f (XNode.elem tg ca cc) st1 ctx with
       | Except.error e => Except.error e
       | Except.ok (c1, st2) =>
         evalChildren f rest [c1] pattrs false st2 ctx) := by
  simp only [evalChildren]
  rw [if_neg h1, if_neg h2, if_neg h3, if_neg h4, if_neg h5, if_neg h6,
    if_neg h7, if_neg (show ¬ (tg = "xacro:if" ∨ tg = "xacro:unless") from
      not_or.mpr ⟨h8, h9⟩)]
  rfl

/-- Expanding the tower's level-`i` call leaves the state untouched and
yields the single `leaf` element, however deep `i` is: the recursion
nests `i+1` `handle_macro_call` activations and nothing bounds `i`. -/
theorem tower_hmc (i : Nat) : ∀ (f : Nat) (scs : List Scope)
    (rt : List (String × Value)) (ln : Bool) (ma : MacroChain)
    (ar : List (String × String)) (ctx : Ctx),
    (∀ j, j ≤ i → lookupMacroChain ma (mName j) = some (towerMac j)) →
    3 * i + 6 ≤ f →
    handleMacroCall f (.elem (callTag i) [] [])
      (St.mk ⟨scs, rt, ln⟩ ma ar) ctx
      = .ok (some ([.elem "leaf" [] []],
          [("name", mName i), ("params", "")]),
        St.mk ⟨scs, rt, ln⟩ ma ar) := by
  induction i with
  | zero =>
    intro f scs rt ln ma ar ctx hmac hf
    obtain ⟨G2, rfl⟩ : ∃ G2, f = G2 + 2 + 1 + 1 := ⟨f - 4, by omega⟩
    have hA : callTag 0 ≠ "xacro:call" :=
      callTag_ne_lit 0 "call" "xacro:call" rfl
        (mName_ne_head 0 "call" (by decide))
    have hres : resolveMacroName ma
        (String.mk ((callTag 0).toList.drop 6)) = some (towerMac 0) := by
      rw [callTag_drop]
      exact hmac 0 (le_refl 0)
    have hbody : evalAll (G2 + 2 + 1) (towerDecl 0)
        (St.mk ⟨Scope.fresh false :: scs, rt, ln⟩ ([] :: ma) ar) ctx
        = .ok (.elem "xacro:macro" [("name", mName 0), ("params", "")]
            [.elem "leaf" [] []],
          St.mk ⟨Scope.fresh false :: scs, rt, ln⟩ ([] :: ma) ar) := by
      show (match evalAttrs (G2 + 2) [("name", mName 0), ("params", "")]
          (St.mk ⟨Scope.fresh false :: scs, rt, ln⟩ ([] :: ma) ar) ctx with
        | Except.error e => Except.error e
        | Except.ok (attrs1, st1) =>
          match evalChildren (G2 + 2) [XNode.elem "leaf" [] []] []
              (eraseD attrs1 "xmlns:xacro") false st1 ctx with
          | Except.error e => Except.error e
          | Except.ok (cs1, pattrs1, st2) =>
            Except.ok (XNode.elem "xacro:macro" pattrs1 cs1, st2)) = _
      rw [evalAttrs_nameparams (G2 + 2) (mName 0)
        ⟨Scope.fresh false :: scs, rt, ln⟩ ([] :: ma) ar ctx
        (mName_plain 0) (by omega)]
      show (match evalChildren (G2 + 2) [XNode.elem "leaf" [] []] []
          [("name", mName 0), ("params", "")] false
          (St.mk ⟨Scope.fresh false :: scs, rt, ln⟩ ([] :: ma) ar) ctx with
        | Except.error e => Except.error e
        | Except.ok (cs1, pattrs1, st2) =>
          Except.ok (XNode.elem "xacro:macro" pattrs1 cs1, st2)) = _
      rw [evalChildren_elem_nonxacro G2 "leaf" [] [] [] []
        [("name", mName 0), ("params", "")] false
        (St.mk ⟨Scope.fresh false :: scs, rt, ln⟩ ([] :: ma) ar) ctx rfl]
      rw [evalAll_empty (G2 + 1) "leaf"
        (St.mk ⟨Scope.fresh false :: scs, rt, ln⟩ ([] :: ma) ar) ctx
        (by omega)]
      show (match evalChildren (G2 + 1) [] [XNode.elem "leaf" [] []]
          [("name", mName 0), ("params", "")] false
          (St.mk ⟨Scope.fresh false :: scs, rt, ln⟩ ([] :: ma) ar) ctx with
        | Except.error e => Except.error e
        | Except.ok (cs1, pattrs1, st2) =>
          Except.ok (XNode.elem "xacro:macro" pattrs1 cs1, st2)) = _
      rw [evalChildren_nil (G2 + 1) _ _ _ _ _ (by omega)]
    rw [handleMacroCall_nilcall (G2 + 2 + 1) (callTag 0)
      (St.mk ⟨scs, rt, ln⟩ ma ar) ctx (towerMac 0) hA
      (callTag_startsWith 0) hres]
    rw [evalAll_empty (G2 + 2 + 1) (callTag 0)
      (St.mk ⟨scs, rt, ln⟩ ma ar) ctx (by omega)]
    show (match evalAll (G2 + 2 + 1) (towerDecl 0)
        (St.mk ⟨Scope.fresh false :: scs, rt, ln⟩ ([] :: ma) ar) ctx with
      | Except.error e => Except.error e
      | Except.ok (body1, st2) =>
        match st2.syms.scopes, st2.macros with
        | _ :: symRest, _ :: macRest =>
          Except.ok (some (body1.children, body1.attrs),
            St.mk ⟨symRest, st2.syms.root, st2.syms.launch⟩
              macRest st2.args)
        | _, _ => Except.error (XErr.hostError "scope chain corrupted")) = _
    rw [hbody]
    rfl
  | succ i ih =>
    intro f scs rt ln ma ar ctx hmac hf
    obtain ⟨G1, rfl⟩ : ∃ G1, f = G1 + 1 + 1 + 1 := ⟨f - 3, by omega⟩
    have hA : callTag (i+1) ≠ "xacro:call" :=
      callTag_ne_lit (i+1) "call" "xacro:call" rfl
        (mName_ne_head (i+1) "call" (by decide))
    have hres : resolveMacroName ma
        (String.mk ((callTag (i+1)).toList.drop 6)) = some (towerMac (i+1)) := by
      rw [callTag_drop]
      exact hmac (i+1) (le_refl _)
    have hmacB : ∀ j, j ≤ i →
        lookupMacroChain ([] :: ma) (mName j) = some (towerMac j) := by
      intro j hj
      rw [lookupMacroChain_cons_nil]
      exact hmac j (Nat.le_succ_of_le hj)
    have hinner : evalChildren (G1 + 1) [XNode.elem (callTag i) [] []] []
        [("name", mName (i+1)), ("params", "")] false
        (St.mk ⟨Scope.fresh false :: scs, rt, ln⟩ ([] :: ma) ar) ctx
        = .ok ([.elem "leaf" [] []], [("name", mName (i+1)), ("params", "")],
          St.mk ⟨Scope.fresh false :: scs, rt, ln⟩ ([] :: ma) ar) := by
      rw [evalChildren_call_acc_nil G1 (callTag i) [] [] []
        [("name", mName (i+1)), ("params", "")] false
        (St.mk ⟨Scope.fresh false :: scs, rt, ln⟩ ([] :: ma) ar) ctx
        (callTag_ne_lit i "insert_block" _ rfl
          (mName_ne_head i _ (by decide)))
        (callTag_ne_lit i "include" _ rfl (mName_ne_head i _ (by decide)))
        (callTag_ne_lit i "property" _ rfl (mName_ne_head i _ (by decide)))
        (callTag_ne_lit i "macro" _ rfl (mName_ne_macro_str i))
        (callTag_ne_lit i "arg" _ rfl (mName_ne_head i _ (by decide)))
        (callTag_ne_lit i "element" _ rfl (mName_ne_head i _ (by decide)))
        (callTag_ne_lit i "attribute" _ rfl (mName_ne_head i _ (by decide)))
        (callTag_ne_lit i "if" _ rfl (mName_ne_head i _ (by decide)))
        (callTag_ne_lit i "unless" _ rfl (mName_ne_head i _ (by decide)))]
      rw [ih G1 (Scope.fresh false :: scs) rt ln ([] :: ma) ar ctx hmacB
        (by omega)]
      show evalChildren G1 [] [XNode.elem "leaf" [] []]
          (importXmlNamespaces [("name", mName (i+1)), ("params", "")]
            [("name", mName i), ("params", "")]) false
          (St.mk ⟨Scope.fresh false :: scs, rt, ln⟩ ([] :: ma) ar) ctx = _
      rw [show importXmlNamespaces [("name", mName (i+1)), ("params", "")]
          [("name", mName i), ("params", "")]
          = [("name", mName (i+1)), ("params", "")] from rfl]
      rw [evalChildren_nil G1 _ _ _ _ _ (by omega)]
    have hbody : evalAll (G1 + 1 + 1) (towerDecl (i+1))
        (St.mk ⟨Scope.fresh false :: scs, rt, ln⟩ ([] :: ma) ar) ctx
        = .ok (.elem "xacro:macro" [("name", mName (i+1)), ("params", "")]
            [.elem "leaf" [] []],
          St.mk ⟨Scope.fresh false :: scs, rt, ln⟩ ([] :: ma) ar) := by
      show (match evalAttrs (G1 + 1) [("name", mName (i+1)), ("params", "")]
          (St.mk ⟨Scope.fresh false :: scs, rt, ln⟩ ([] :: ma) ar) ctx with
        | Except.error e => Except.error e
        | Except.ok (attrs1, st1) =>
          match evalChildren (G1 + 1) [XNode.elem (callTag i) [] []] []
              (eraseD attrs1 "xmlns:xacro") false st1 ctx with
          | Except.error e => Except.error e
          | Except.ok (cs1, pattrs1, st2) =>
            Except.ok (XNode.elem "xacro:macro" pattrs1 cs1, st2)) = _
      rw [evalAttrs_nameparams (G1 + 1) (mName (i+1))
        ⟨Scope.fresh false :: scs, rt, ln⟩ ([] :: ma) ar ctx
        (mName_plain (i+1)) (by omega)]
      show (match evalChildren (G1 + 1) [XNode.elem (callTag i) [] []] []
          [("name", mName (i+1)), ("params", "")] false
          (St.mk ⟨Scope.fresh false :: scs, rt, ln⟩ ([] :: ma) ar) ctx with
        | Except.error e => Except.error e
        | Except.ok (cs1, pattrs1, st2) =>
          Except.ok (XNode.elem "xacro:macro" pattrs1 cs1, st2)) = _
      rw [hinner]
    rw [handleMacroCall_nilcall (G1 + 1 + 1) (callTag (i+1))
      (St.mk ⟨scs, rt, ln⟩ ma ar) ctx (towerMac (i+1)) hA
      (callTag_startsWith (i+1)) hres]
    rw [evalAll_empty (G1 + 1 + 1) (callTag (i+1))
      (St.mk ⟨scs, rt, ln⟩ ma ar) ctx (by omega)]
    show (match evalAll (G1 + 1 + 1) (towerDecl (i+1))
        (St.mk ⟨Scope.fresh false :: scs, rt, ln⟩ ([] :: ma) ar) ctx with
      | Except.error e => Except.error e
      | Except.ok (body1, st2) =>
        match st2.syms.scopes, st2.macros with
        | _ :: symRest, _ :: macRest =>
          Except.ok (some (body1.children, body1.attrs),
            St.mk ⟨symRest, st2.syms.root, st2.syms.launch⟩
              macRest st2.args)
        | _, _ => Except.error (XErr.hostError "scope chain corrupted")) = _
    rw [hbody]
    rfl



theorem elem_dot_replicate (n : Nat) :
    List.elem '.' (List.replicate n 'i') = false := by
  induction n with
  | zero => rfl
  | succ m ih =>
    show List.elem '.' (List.replicate m 'i') = false
    exact ih

theorem mName_no_dot (j : Nat) : ((mName j).toList.contains '.') = false := by
  show List.elem '.' (List.replicate j 'i') = false
  exact elem_dot_replicate j

/-- `grab_macro` on a well-formed declaration element with no `params`. -/
theorem grabMacroDecl_decl (nm : String) (kids : List XNode)
    (h1 : nm ≠ "call") (h2 : (nm.toList.contains '.') = false)
    (h3 : strStartsWith nm "xacro:" = false)
    (sc : List (String × MacroDef)) (mrest : MacroChain) :
    grabMacroDecl
        (.elem "xacro:macro" [("name", nm), ("params", "")] kids)
        (sc :: mrest)
      = .ok (setD sc nm
          ⟨.elem "xacro:macro" [("name", nm), ("params", "")] kids, [], []⟩
        :: mrest) := by
  show (if nm = "call" then Except.error XErr.macroNameIsCall
    else if (nm.toList.contains '.') = true then
      Except.error (XErr.macroNameHasDot nm)
    else Except.ok (setD sc
      (if strStartsWith nm "xacro:" = true
        then String.mk (nm.toList.drop 6) else nm)
      ⟨XNode.elem "xacro:macro" [("name", nm), ("params", "")] kids, [], []⟩
      :: mrest)) = _
  rw [if_neg h1, if_neg (by rw [h2]; decide), if_neg (by rw [h3]; decide)]

theorem mName_not_xacro (j : Nat) :
    strStartsWith (mName j) "xacro:" = false := rfl

theorem grabMacroDecl_tower (j : Nat) (sc : List (String × MacroDef))
    (mrest : MacroChain) :
    grabMacroDecl (towerDecl j) (sc :: mrest)
      = .ok (setD sc (mName j) (towerMac j) :: mrest) := by
  cases j with
  | zero =>
    exact grabMacroDecl_decl (mName 0) [.elem "leaf" [] []]
      (mName_ne_head 0 "call" (by decide)) (mName_no_dot 0)
      (mName_not_xacro 0) sc mrest
  | succ jj =>
    exact grabMacroDecl_decl (mName (jj+1)) [.elem (callTag jj) [] []]
      (mName_ne_head (jj+1) "call" (by decide)) (mName_no_dot (jj+1))
      (mName_not_xacro (jj+1)) sc mrest

/-- Processing one tower declaration: the element is consumed and its
macro stored in the local macro scope. -/
theorem evalChildren_towerDecl (f : Nat) (j : Nat) (rest : List XNode)
    (pattrs : List (String × String)) (sy : SymTable)
    (sc : List (String × MacroDef)) (mrest : MacroChain)
    (ar : List (String × String)) (ctx : Ctx) :
    evalChildren (f + 1) (towerDecl j :: rest) [] pattrs false
      (St.mk sy (sc :: mrest) ar) ctx
    = evalChildren f rest [] pattrs false
      (St.mk sy (setD sc (mName j) (towerMac j) :: mrest) ar) ctx := by
  cases j with
  | zero =>
    show (match grabMacroDecl (towerDecl 0) (sc :: mrest) with
      | Except.error e => Except.error e
      | Except.ok macros1 =>
        evalChildren f rest [] pattrs false (St.mk sy macros1 ar) ctx) = _
    rw [grabMacroDecl_tower 0 sc mrest]
  | succ jj =>
    show (match grabMacroDecl (towerDecl (jj+1)) (sc :: mrest) with
      | Except.error e => Except.error e
      | Except.ok macros1 =>
        evalChildren f rest [] pattrs false (St.mk sy macros1 ar) ctx) = _
    rw [grabMacroDecl_tower (jj+1) sc mrest]

/-- Processing the whole declaration run of the depth-`d` tower. -/
theorem tower_decls_run (d : Nat) : ∀ (g : Nat) (tail : List XNode)
    (pattrs : List (String × String)) (sy : SymTable)
    (sc : List (String × MacroDef)) (mrest : MacroChain)
    (ar : List (String × String)) (ctx : Ctx),
    evalChildren (g + (d + 1)) (towerDecls d ++ tail) [] pattrs false
      (St.mk sy (sc :: mrest) ar) ctx
    = evalChildren g tail [] pattrs false
      (St.mk sy (towerScope d sc :: mrest) ar) ctx := by
  induction d with
  | zero =>
    intro g tail pattrs sy sc mrest ar ctx
    rw [show towerDecls 0 ++ tail = towerDecl 0 :: tail from rfl]
    rw [evalChildren_towerDecl g 0 tail pattrs sy sc mrest ar ctx]
    rfl
  | succ dd ihd =>
    intro g tail pattrs sy sc mrest ar ctx
    rw [show towerDecls (dd+1) ++ tail
      = towerDecl (dd+1) :: (towerDecls dd ++ tail) from rfl]
    rw [show g + (dd + 1 + 1) = (g + (dd + 1)) + 1 from rfl]
    rw [evalChildren_towerDecl (g + (dd + 1)) (dd+1) (towerDecls dd ++ tail)
      pattrs sy sc mrest ar ctx]
    rw [ihd g tail pattrs sy (setD sc (mName (dd+1)) (towerMac (dd+1)))
      mrest ar ctx]
    rfl

theorem evalAttrs_nil (f : Nat) (st : St) (ctx : Ctx) (hf : 1 ≤ f) :
    evalAttrs f [] st ctx = .ok ([], st) := by
  obtain ⟨g, rfl⟩ : ∃ g, f = g + 1 := ⟨f - 1, by omega⟩
  rfl

/-- A depth-`d` macro-nesting tower is processed to a single `leaf`
whenever the fuel (the host stack) admits `d+1` nested expansions; no
depth is ever rejected. -/
theorem tower_run (d : Nat) (f : Nat) (ctx : Ctx) (hf : 4 * d + 9 ≤ f) :
    processDoc f (towerDoc d) [] ctx
    = .ok (.elem "robot" [] [.elem "leaf" [] []],
        St.mk ⟨[Scope.fresh false], globalSymbols, false⟩
          [towerScope d []] []) := by
  obtain ⟨s, rfl⟩ : ∃ s, f = ((s + (3 * d + 6)) + 1 + (d + 1)) + 1 :=
    ⟨f - (4 * d + 9), by omega⟩
  have hmacTop : ∀ j, j ≤ d →
      lookupMacroChain [towerScope d []] (mName j) = some (towerMac j) := by
    intro j hj
    show (match lookupD (towerScope d []) (mName j) with
      | some m => some m
      | none => lookupMacroChain [] (mName j)) = _
    rw [towerScope_lookup d [] j hj]
  show (match evalAttrs ((s + (3 * d + 6)) + 1 + (d + 1)) []
      (St.mk ⟨[Scope.fresh false], globalSymbols, false⟩ [[]] []) ctx with
    | Except.error e => Except.error e
    | Except.ok (attrs1, st1) =>
      match evalChildren ((s + (3 * d + 6)) + 1 + (d + 1))
          (towerDecls d ++ [XNode.elem (callTag d) [] []]) []
          (eraseD attrs1 "xmlns:xacro") false st1 ctx with
      | Except.error e => Except.error e
      | Except.ok (cs1, pattrs1, st2) =>
        Except.ok (XNode.elem "robot" pattrs1 cs1, st2)) = _
  rw [evalAttrs_nil _ _ ctx (by omega)]
  show (match evalChildren ((s + (3 * d + 6)) + 1 + (d + 1))
      (towerDecls d ++ [XNode.elem (callTag d) [] []]) [] [] false
      (St.mk ⟨[Scope.fresh false], globalSymbols, false⟩ [[]] []) ctx with
    | Except.error e => Except.error e
    | Except.ok (cs1, pattrs1, st2) =>
      Except.ok (XNode.elem "robot" pattrs1 cs1, st2)) = _
  rw [tower_decls_run d ((s + (3 * d + 6)) + 1)
    [XNode.elem (callTag d) [] []] []
    ⟨[Scope.fresh false], globalSymbols, false⟩ [] [] [] ctx]
  rw [evalChildren_call_acc_nil (s + (3 * d + 6)) (callTag d) [] [] [] []
    false (St.mk ⟨[Scope.fresh false], globalSymbols, false⟩
      [towerScope d []] []) ctx
    (callTag_ne_lit d "insert_block" _ rfl (mName_ne_head d _ (by decide)))
    (callTag_ne_lit d "include" _ rfl (mName_ne_head d _ (by decide)))
    (callTag_ne_lit d "property" _ rfl (mName_ne_head d _ (by decide)))
    (callTag_ne_lit d "macro" _ rfl (mName_ne_macro_str d))
    (callTag_ne_lit d "arg" _ rfl (mName_ne_head d _ (by decide)))
    (callTag_ne_lit d "element" _ rfl (mName_ne_head d _ (by decide)))
    (callTag_ne_lit d "attribute" _ rfl (mName_ne_head d _ (by decide)))
    (callTag_ne_lit d "if" _ rfl (mName_ne_head d _ (by decide)))
    (callTag_ne_lit d "unless" _ rfl (mName_ne_head d _ (by decide)))]
  rw [tower_hmc d (s + (3 * d + 6)) [Scope.fresh false] globalSymbols false
    [towerScope d []] [] ctx hmacTop (by omega)]
  show (match evalChildren (s + (3 * d + 6)) [] [XNode.elem "leaf" [] []]
      (importXmlNamespaces [] [("name", mName d), ("params", "")]) false
      (St.mk ⟨[Scope.fresh false], globalSymbols, false⟩
        [towerScope d []] []) ctx with
    | Except.error e => Except.error e
    | Except.ok (cs1, pattrs1, st2) =>
      Except.ok (XNode.elem "robot" pattrs1 cs1, st2)) = _
  rw [show importXmlNamespaces [] [("name", mName d), ("params", "")]
    = ([] : List (String × String)) from rfl]
  rw [evalChildren_nil (s + (3 * d + 6)) _ _ _ _ ctx (by omega)]

/-- Counterexample for C4: expansion is not idempotent, on three counts.
(i) `eval_all` dispatches only on children, never on the node it is
handed, so a macro-namespace element at the document root survives into
the output.  (ii) `xacro:attribute` installs its evaluated name
verbatim on the parent, so the output can contain a macro-namespace
attribute (`xacro:foo`).  (iii) The `$$` escape is unescaped on every
run: `$${x}` becomes the literal `${x}`, and feeding that output back
into the evaluator does not reproduce it — the second run tries to
evaluate `${x}` and fails with `NameError: 'x'`. -/
theorem expansion_not_idempotent :
    (processDoc 30 rootDirectiveDoc [] emptyCtx).map (fun p => p.1) =
      .ok (.elem "xacro:property" [("name", "a"), ("value", "1")] []) ∧
    (processDoc 30 attrInstallDoc [] emptyCtx).map (fun p => p.1) =
      .ok (.elem "robot" [("xacro:foo", "1")] []) ∧
    (processDoc 30 dollarEscapeDoc [] emptyCtx).map (fun p => p.1) =
      .ok (.elem "a" [("t", "${x}")] []) ∧
    processDoc 30 (.elem "a" [("t", "${x}")] []) [] emptyCtx =
      .error (.wrapped (.nameError "x") "when evaluating expression x") := by
  exact ⟨rfl, rfl, rfl, rfl⟩

/-- Counterexample for C1: expanding the claim's call does not succeed —
the call attribute `c="${a+10}"` is evaluated eagerly in the caller
scope, which binds only `b=9` and not `a`, so the whole expansion fails
with `NameError: 'a'` and the claimed bindings `a=1, b=9, c=11` are never
reached (shown both on the full document and directly on
`handle_macro_call` with the caller scope `{b: 9}`). -/
theorem macro_call_attr_uses_caller_scope :
    processDoc 60 macroCallDoc [] emptyCtx =
      .error (.wrapped (.nameError "a") "when evaluating expression a+10") ∧
    handleMacroCall 40 callM (callerSt [("b", .vint 9)]) emptyCtx =
      .error (.wrapped (.nameError "a") "when evaluating expression a+10") := by
  exact ⟨rfl, rfl⟩

/-- C1 (amended): `grab_macro` parses `a b:=2 c:=^|3` into parameters
`a, b, c` with default map `b ↦ ("2")`, `c ↦ (forward, "3")`; call
attributes are evaluated in the caller scope, so the claim's call only
expands when the caller also binds `a`.  With `a=1, b=9` bound in the
caller scope, the body is evaluated with `a=1` (call attribute), `b=2`
(the plain `:=` default — the caller's `b=9` is not consulted, since only
`:=^|` forwards) and `c=11` (the call attribute `${a+10}` under the
caller's `a=1`; the forwarded default `c:=^|3` is ignored because the
call binds `c`), and the caller state is returned unchanged. -/
theorem macro_call_binding_semantics :
    grabMacroDecl macroMDecl [[]] = .ok [[("m", macroM)]] ∧
    handleMacroCall 40 callM (callerSt [("a", .vint 1), ("b", .vint 9)])
        emptyCtx =
      .ok (some ([.elem "q" [("x", "1"), ("y", "2"), ("z", "11")] []],
                 [("name", "m"), ("params", "a b:=2 c:=^|3")]),
           callerSt [("a", .vint 1), ("b", .vint 9)]) := by
  exact ⟨rfl, rfl⟩

/-- Counterexample for C5: there is no recursion guard anywhere in the
evaluator — no depth counter, no configurable bound, no explicit
recursion error.  The depth-257 macro-nesting tower, which exceeds the
claimed default bound of 256, is processed successfully to a single
`leaf` element instead of being rejected with an explicit error. -/
theorem no_recursion_guard_at_depth_257 :
    (processDoc 1037 (towerDoc 257) [] emptyCtx).map (fun p => p.1)
      = .ok (.elem "robot" [] [.elem "leaf" [] []]) := by
  rw [tower_run 257 1037 emptyCtx (by omega)]
  rfl

/-- C5 (amended): the evaluator has no recursion guard; the recursion
depth of nested macro expansion is bounded only by the host interpreter's
stack (modelled as fuel).  For every depth `d` — with no bound at 256 or
anywhere else — the depth-`d` tower is processed successfully given
host resources linear in `d`, so inputs of any nesting depth are
processed normally and none is rejected. -/
theorem macro_recursion_unbounded (d f : Nat) (hf : 4 * d + 9 ≤ f) :
    (processDoc f (towerDoc d) [] emptyCtx).map (fun p => p.1)
      = .ok (.elem "robot" [] [.elem "leaf" [] []]) := by
  rw [tower_run d f emptyCtx hf]
  rfl

/-- Witness for C5's amended theorem at depth 3. -/
theorem macro_recursion_unbounded_witness :
    (processDoc 21 (towerDoc 3) [] emptyCtx).map (fun p => p.1)
      = .ok (.elem "robot" [] [.elem "leaf" [] []]) :=
  macro_recursion_unbounded 3 21 (by decide)

end Xacro
